import Mathlib

/-!
# Verification of the maze generator and navigation guard of `MazeGame_react`

Shallow embedding of `src/App.tsx`.

The source represents a maze as a JS array of arrays of cells, where a cell
is `0` (wall) or `1` (path).  We embed the maze under construction as a total
function `ℤ → ℤ → ℕ` (the array contents; out-of-bounds reads are mediated by
`readJS`, which models the `maze[ny]?.[nx]` optional-chaining access of the
source), and the returned grid as the materialized `List (List ℕ)`.

The source's `shuffle` (`arr.sort(() => Math.random() - 0.5)`) returns some
permutation of the four direction vectors on every call; we model the random
source as an oracle `o : ℕ → Fin 4 → Fin 4` giving, for the `k`-th pop, the
index permutation applied to the direction array.  Theorems that need every
direction to be considered assume the oracle values are surjective
(equivalently bijective on `Fin 4`), which is exactly what a JS sort
guarantees: the output is a permutation of the input.

The source fixes `MAZE_WIDTH = MAZE_HEIGHT = 21`, defines
`GOAL_X = MAZE_WIDTH - 2`, `GOAL_Y = MAZE_HEIGHT - 2`, and invokes
`generateMaze` exactly once, with `(MAZE_WIDTH, MAZE_HEIGHT)`.  The embedding
takes the dimensions as parameters, so the goal coordinate is
`(width - 2, height - 2)`, which coincides with the source constants at every
actual call site.

The fields `carved`, `pushed`, `edges` and `pops` of `GenState` are ghost
instrumentation: they record the cells written to `1`, the coordinates pushed
on the stack, the carved passages, and the number of loop iterations.  They
influence nothing (except that `pops` indexes the oracle, numbering the
successive calls to `shuffle`).
-/

/-- Constant `MAZE_WIDTH` of the source. -/
def MAZE_WIDTH : ℕ := 21

/-- Constant `MAZE_HEIGHT` of the source. -/
def MAZE_HEIGHT : ℕ := 21

/-- Constant `START_X` of the source. -/
def START_X : ℤ := 1

/-- Constant `START_Y` of the source. -/
def START_Y : ℤ := 1

/-- Parameterized form of the source's goal column: the source's
`GOAL_X = MAZE_WIDTH - 2` is a fixed module global (19), independent of the
`width` argument of `generateMaze`; this parameterized form coincides with it
exactly at the only call site (`width = MAZE_WIDTH`) and diverges elsewhere.
The claims about grids returned by the generator are stated over this form;
the exact fixed-global behavior of line 74, including the `TypeError` it
throws when row `GOAL_Y` does not exist, is modeled separately by
`generateMazeJS` below and settles C6. -/
def GOAL_X (width : ℕ) : ℤ := (width : ℤ) - 2

/-- Parameterized form of the source's goal row `GOAL_Y = MAZE_HEIGHT - 2`
(a fixed module global, 19); same caveat as `GOAL_X`. -/
def GOAL_Y (height : ℕ) : ℤ := (height : ℤ) - 2

/-- The maze under construction: array contents as a total function.
`0` is wall, `1` is path. -/
abbrev MazeFn : Type := ℤ → ℤ → ℕ

/-- Array store `maze[y][x] = v`. -/
def setCell (m : MazeFn) (x y : ℤ) (v : ℕ) : MazeFn :=
  fun a b => if a = x ∧ b = y then v else m a b

/-- The JS read `maze[y]?.[x]` on a `height × width` array: `undefined`
(`none`) whenever the row index or the column index is out of bounds
(including negative indices). -/
def readJS (m : MazeFn) (width height : ℕ) (x y : ℤ) : Option ℕ :=
  if 0 ≤ y ∧ y < (height : ℤ) ∧ 0 ≤ x ∧ x < (width : ℤ) then some (m x y) else none

/-- The direction array of the source:
`[[2,0],[-2,0],[0,2],[0,-2]]` as `(dx, dy)` pairs. -/
def dirs : Fin 4 → ℤ × ℤ :=
  ![(2, 0), (-2, 0), (0, 2), (0, -2)]

/-- The direction order produced by the `k`-th call to `shuffle`, as chosen by
the oracle `o`.  A JS sort with any comparator returns a permutation of its
input, so the relevant values of `o` are the (bijective) self-maps of
`Fin 4`. -/
def orderAt (o : ℕ → Fin 4 → Fin 4) (k : ℕ) : List (ℤ × ℤ) :=
  (List.finRange 4).map (fun i => dirs (o k i))

/-- State of the generation loop.  `maze` and `stack` are the program
variables; `carved`, `pushed`, `edges`, `pops` are ghost instrumentation
(`pops` also numbers the shuffle calls). -/
structure GenState where
  maze : MazeFn
  stack : List (ℤ × ℤ)
  carved : List (ℤ × ℤ)
  pushed : List (ℤ × ℤ)
  edges : List ((ℤ × ℤ) × (ℤ × ℤ))
  pops : ℕ

/-- The body of the `forEach` over the shuffled directions, for popped cell
`(x, y)` and direction `d`: if `maze[ny]?.[nx] === 0` then carve the
neighbor, carve the midpoint (`maze[y + dy/2][x + dx/2] = 1`), and push the
neighbor. -/
def extend (width height : ℕ) (x y : ℤ) (st : GenState) (d : ℤ × ℤ) : GenState :=
  let nx := x + d.1
  let ny := y + d.2
  if readJS st.maze width height nx ny = some 0 then
    { maze := setCell (setCell st.maze nx ny 1) (x + d.1 / 2) (y + d.2 / 2) 1
      stack := (nx, ny) :: st.stack
      carved := st.carved ++ [(nx, ny), (x + d.1 / 2, y + d.2 / 2)]
      pushed := st.pushed ++ [(nx, ny)]
      edges := st.edges ++ [((x, y), (nx, ny))]
      pops := st.pops }
  else st

/-- One full pop: process every direction of `order` (the shuffled direction
array) from the popped cell `(x, y)`. -/
def carvePop (width height : ℕ) (order : List (ℤ × ℤ)) (x y : ℤ) (st : GenState) :
    GenState :=
  order.foldl (extend width height x y) st

/-- The `while (stack.length)` loop, fuel-indexed.  Each unit of fuel funds at
most one iteration (`C7` proves that `width * height` units always suffice).
Popping takes the head of the stack; the popped cell is not re-pushed. -/
def carveLoop (width height : ℕ) (o : ℕ → Fin 4 → Fin 4) : ℕ → GenState → GenState
  | 0, st => st
  | fuel + 1, st =>
    match st.stack with
    | [] => st
    | (x, y) :: rest =>
      carveLoop width height o fuel
        (carvePop width height (orderAt o st.pops) x y
          { st with stack := rest, pops := st.pops + 1 })

/-- The state right before the loop: all-wall grid, start cell set to path,
start cell pushed. -/
def initState : GenState :=
  { maze := setCell (fun _ _ => 0) START_X START_Y 1
    stack := [(START_X, START_Y)]
    carved := [(START_X, START_Y)]
    pushed := [(START_X, START_Y)]
    edges := []
    pops := 0 }

/-- The generation state after the loop has run (with sufficient fuel
`width * height`) and the goal cell has been forced to path
(`maze[GOAL_Y][GOAL_X] = 1`, with the goal coordinate in its parameterized
form, which matches the source's fixed globals at the only call site
`width = height = 21`; `generateMazeJS` below models the write with the
fixed globals themselves, including the crash when row 19 is missing). -/
def genFinal (width height : ℕ) (o : ℕ → Fin 4 → Fin 4) : GenState :=
  let st := carveLoop width height o (width * height) initState
  { st with
    maze := setCell st.maze (GOAL_X width) (GOAL_Y height) 1
    carved := st.carved ++ [(GOAL_X width, GOAL_Y height)] }

/-- The finished maze as array contents. -/
def genFn (width height : ℕ) (o : ℕ → Fin 4 → Fin 4) : MazeFn :=
  (genFinal width height o).maze

/-- Materialization of array contents into the returned value, a
`height`-element array of `width`-element rows, row `y` holding
`maze[y][x]` at index `x`. -/
def mazeList (m : MazeFn) (width height : ℕ) : List (List ℕ) :=
  (List.range height).map fun y => (List.range width).map fun x => m (Int.ofNat x) (Int.ofNat y)

/-- Function `generateMaze`: the grid returned to the caller. -/
def generateMaze (width height : ℕ) (o : ℕ → Fin 4 → Fin 4) : List (List ℕ) :=
  mazeList (genFn width height o) width height

/-- JS array indexing `l[i]`: `undefined` (`none`) for negative or
too-large `i`. -/
def jsGet {α : Type} (l : List α) (i : ℤ) : Option α :=
  if i < 0 then none else l.get? i.toNat

/-- The navigation guard of `handleKeyDown`: `maze[ny]?.[nx] === 1`. -/
def canMoveTo (m : List (List ℕ)) (x y : ℤ) : Bool :=
  ((jsGet m y).bind fun row => jsGet row x) == some 1

/-- Keyboard inputs: the four arrow keys, and any other key. -/
inductive Key : Type
  | up
  | down
  | left
  | right
  | other

/-- The candidate coordinate computed by `handleKeyDown`: start from the
current position and apply the single-step offset of the pressed key (no
offset for non-arrow keys). -/
def candidate (p : ℤ × ℤ) (k : Key) : ℤ × ℤ :=
  match k with
  | Key.up => (p.1, p.2 - 1)
  | Key.down => (p.1, p.2 + 1)
  | Key.left => (p.1 - 1, p.2)
  | Key.right => (p.1 + 1, p.2)
  | Key.other => p

/-- The position update of `handleKeyDown`: move to the candidate cell iff
the guard approves it, else keep the current position. -/
def movePos (m : List (List ℕ)) (p : ℤ × ℤ) (k : Key) : ℤ × ℤ :=
  let c := candidate p k
  if canMoveTo m c.1 c.2 then c else p

/-! ## Derived notions used by the specification -/

/-- In-bounds coordinates of a `width × height` grid. -/
def InB (width height : ℕ) (x y : ℤ) : Prop :=
  0 ≤ x ∧ x < (width : ℤ) ∧ 0 ≤ y ∧ y < (height : ℤ)

/-- Strictly interior coordinates (not on the border). -/
def InnerAt (width height : ℕ) (x y : ℤ) : Prop :=
  1 ≤ x ∧ x ≤ (width : ℤ) - 2 ∧ 1 ≤ y ∧ y ≤ (height : ℤ) - 2

/-- Lattice cells: in-bounds cells with both coordinates odd (the maze-cell
centers carved by the algorithm). -/
def LatCell (width height : ℕ) (c : ℤ × ℤ) : Prop :=
  InB width height c.1 c.2 ∧ Odd c.1 ∧ Odd c.2

/-- Four-directional adjacency of coordinates. -/
def adj4 (p q : ℤ × ℤ) : Prop :=
  (p.1 = q.1 ∧ (q.2 = p.2 + 1 ∨ p.2 = q.2 + 1)) ∨
    (p.2 = q.2 ∧ (q.1 = p.1 + 1 ∨ p.1 = q.1 + 1))

/-- One connectivity step over path cells: move to a 4-adjacent cell that is
path in `m`. -/
def stepRel (m : MazeFn) (p q : ℤ × ℤ) : Prop :=
  adj4 p q ∧ m q.1 q.2 = 1

/-- Relation `Reaches m p q`: `q` is reachable from `p` by 4-directional moves through
path cells of `m`. -/
def Reaches (m : MazeFn) (p q : ℤ × ℤ) : Prop :=
  Relation.ReflTransGen (stepRel m) p q

/-- The in-bounds box of a `width × height` grid as a finite set. -/
def boxFinset (width height : ℕ) : Finset (ℤ × ℤ) :=
  Finset.Icc 0 ((width : ℤ) - 1) ×ˢ Finset.Icc 0 ((height : ℤ) - 1)

/-- The lattice (odd-odd in-bounds cells) as a finite set. -/
def latFinset (width height : ℕ) : Finset (ℤ × ℤ) :=
  (boxFinset width height).filter fun c => Odd c.1 ∧ Odd c.2

/-- Number of lattice cells still wall in `st`. -/
def wallLat (width height : ℕ) (st : GenState) : ℕ :=
  ((latFinset width height).filter fun c => st.maze c.1 c.2 = 0).card

/-! ## Basic lemmas about the store and the directions -/

lemma setCell_same (m : MazeFn) (x y : ℤ) (v : ℕ) : setCell m x y v x y = v := by
  simp [setCell]

lemma setCell_of_ne (m : MazeFn) (x y a b : ℤ) (v : ℕ) (h : ¬(a = x ∧ b = y)) :
    setCell m x y v a b = m a b := by
  simp [setCell, h]

lemma setCell_one_eq_one_iff (m : MazeFn) (x y a b : ℤ) :
    setCell m x y 1 a b = 1 ↔ (a = x ∧ b = y) ∨ m a b = 1 := by
  by_cases h : a = x ∧ b = y <;> simp [setCell, h]

lemma readJS_eq_some_zero_iff (m : MazeFn) (w h : ℕ) (x y : ℤ) :
    readJS m w h x y = some 0 ↔ InB w h x y ∧ m x y = 0 := by
  by_cases hb : 0 ≤ y ∧ y < (h : ℤ) ∧ 0 ≤ x ∧ x < (w : ℤ)
  · simp only [readJS, if_pos hb, Option.some.injEq]
    exact ⟨fun h0 => ⟨⟨hb.2.2.1, hb.2.2.2, hb.1, hb.2.1⟩, h0⟩, fun h0 => h0.2⟩
  · simp only [readJS, if_neg hb]
    constructor
    · intro h0; cases h0
    · intro h0; exact absurd ⟨h0.1.2.2.1, h0.1.2.2.2, h0.1.1, h0.1.2.1⟩ hb

lemma dirs_cases (i : Fin 4) :
    dirs i = (2, 0) ∨ dirs i = (-2, 0) ∨ dirs i = (0, 2) ∨ dirs i = (0, -2) := by
  fin_cases i <;> simp [dirs]

lemma orderAt_mem_dirs (o : ℕ → Fin 4 → Fin 4) (k : ℕ) (d : ℤ × ℤ)
    (hd : d ∈ orderAt o k) : ∃ i : Fin 4, d = dirs i := by
  simp only [orderAt, List.mem_map] at hd
  obtain ⟨i, -, rfl⟩ := hd
  exact ⟨o k i, rfl⟩

lemma orderAt_length (o : ℕ → Fin 4 → Fin 4) (k : ℕ) : (orderAt o k).length = 4 := by
  simp [orderAt]

lemma dirs_mem_orderAt (o : ℕ → Fin 4 → Fin 4) (k : ℕ)
    (hsurj : Function.Surjective (o k)) (i : Fin 4) : dirs i ∈ orderAt o k := by
  obtain ⟨j, hj⟩ := hsurj i
  simp only [orderAt, List.mem_map]
  exact ⟨j, List.mem_finRange j, by rw [hj]⟩

/-! ## Generic preservation combinators for the fold and the loop -/

lemma carvePop_pres (w h : ℕ) (x y : ℤ) (P : GenState → Prop)
    (order : List (ℤ × ℤ))
    (hstep : ∀ st d, d ∈ order → P st → P (extend w h x y st d)) :
    ∀ st, P st → P (carvePop w h order x y st) := by
  induction order with
  | nil => intro st hst; simpa [carvePop] using hst
  | cons d rest ih =>
    intro st hst
    have h1 : P (extend w h x y st d) :=
      hstep st d (List.mem_cons_self d rest) hst
    have := ih (fun st' d' hd' => hstep st' d' (List.mem_cons_of_mem d hd'))
      (extend w h x y st d) h1
    simpa [carvePop] using this

lemma carveLoop_pres (w h : ℕ) (o : ℕ → Fin 4 → Fin 4) (P : GenState → Prop)
    (hstep : ∀ st x y rest, st.stack = (x, y) :: rest → P st →
      P (carvePop w h (orderAt o st.pops) x y
          { st with stack := rest, pops := st.pops + 1 })) :
    ∀ fuel st, P st → P (carveLoop w h o fuel st) := by
  intro fuel
  induction fuel with
  | zero => intro st hst; simpa [carveLoop] using hst
  | succ n ih =>
    intro st hst
    match hstk : st.stack with
    | [] => simpa [carveLoop, hstk] using hst
    | (x, y) :: rest =>
      have := ih _ (hstep st x y rest hstk hst)
      simpa [carveLoop, hstk] using this

/-! ## Monotonicity: the maze only ever gains path cells -/

lemma extend_mono (w h : ℕ) (x y a b : ℤ) (st : GenState) (d : ℤ × ℤ)
    (hab : st.maze a b = 1) : (extend w h x y st d).maze a b = 1 := by
  by_cases hg : readJS st.maze w h (x + d.1) (y + d.2) = some 0
  · simp only [extend, hg, if_pos]
    rw [setCell_one_eq_one_iff, setCell_one_eq_one_iff]
    tauto
  · simpa [extend, hg] using hab

lemma carvePop_mono (w h : ℕ) (order : List (ℤ × ℤ)) (x y a b : ℤ) (st : GenState)
    (hab : st.maze a b = 1) : (carvePop w h order x y st).maze a b = 1 :=
  carvePop_pres w h x y (fun s => s.maze a b = 1) order
    (fun s d _ hs => extend_mono w h x y a b s d hs) st hab

lemma carveLoop_mono (w h : ℕ) (o : ℕ → Fin 4 → Fin 4) (fuel : ℕ) (a b : ℤ)
    (st : GenState) (hab : st.maze a b = 1) :
    (carveLoop w h o fuel st).maze a b = 1 :=
  carveLoop_pres w h o (fun s => s.maze a b = 1)
    (fun s x y rest _ hs => carvePop_mono w h _ x y a b _ hs) fuel st hab

/-- The maze contains only `0`s and `1`s. -/
def ZeroOne (m : MazeFn) : Prop := ∀ a b : ℤ, m a b = 0 ∨ m a b = 1

lemma extend_zeroOne (w h : ℕ) (x y : ℤ) (st : GenState) (d : ℤ × ℤ)
    (hz : ZeroOne st.maze) : ZeroOne (extend w h x y st d).maze := by
  by_cases hg : readJS st.maze w h (x + d.1) (y + d.2) = some 0
  · intro a b
    simp only [extend, hg, if_pos]
    rw [setCell_one_eq_one_iff, setCell_one_eq_one_iff]
    rcases hz a b with h0 | h1
    · by_cases h2 : (a = x + d.1 / 2 ∧ b = y + d.2 / 2) <;>
        by_cases h3 : (a = x + d.1 ∧ b = y + d.2) <;>
        simp [setCell, h2, h3, h0]
    · right; tauto
  · simpa [extend, hg] using hz

lemma carvePop_zeroOne (w h : ℕ) (order : List (ℤ × ℤ)) (x y : ℤ) (st : GenState)
    (hz : ZeroOne st.maze) : ZeroOne (carvePop w h order x y st).maze :=
  carvePop_pres w h x y (fun s => ZeroOne s.maze) order
    (fun s d _ hs => extend_zeroOne w h x y s d hs) st hz

lemma carveLoop_zeroOne (w h : ℕ) (o : ℕ → Fin 4 → Fin 4) (fuel : ℕ) (st : GenState)
    (hz : ZeroOne st.maze) : ZeroOne (carveLoop w h o fuel st).maze :=
  carveLoop_pres w h o (fun s => ZeroOne s.maze)
    (fun s x y rest _ hs => carvePop_zeroOne w h _ x y _ hs) fuel st hz

/-! ## Geometry of the four directions -/

lemma dirs_val_0 : dirs 0 = (2, 0) := rfl

lemma dirs_val_1 : dirs 1 = (-2, 0) := rfl

lemma dirs_val_2 : dirs 2 = (0, 2) := rfl

lemma dirs_val_3 : dirs 3 = (0, -2) := rfl

lemma int_two_div_two : (2 : ℤ) / 2 = 1 := by decide

lemma int_neg_two_div_two : (-2 : ℤ) / 2 = -1 := by decide

lemma int_zero_div_two : (0 : ℤ) / 2 = 0 := by decide

/-- All geometric facts about carving one direction `dirs i` from an odd
in-bounds cell `(x, y)` of an odd-dimensioned grid, given that the neighbor
two cells away is in bounds: the neighbor is an interior odd-odd cell, the
midpoint is interior with exactly one odd coordinate, the three cells are
pairwise distinct, and cell—midpoint—neighbor are 4-adjacent. -/
lemma dir_facts (w h : ℕ) (i : Fin 4) (x y : ℤ)
    (hx : Odd x) (hy : Odd y) (hxy : InB w h x y)
    (hw : Odd w) (hh : Odd h)
    (hn : InB w h (x + (dirs i).1) (y + (dirs i).2)) :
    (Odd (x + (dirs i).1) ∧ Odd (y + (dirs i).2)) ∧
    InnerAt w h (x + (dirs i).1) (y + (dirs i).2) ∧
    InnerAt w h (x + (dirs i).1 / 2) (y + (dirs i).2 / 2) ∧
    ¬(Odd (x + (dirs i).1 / 2) ∧ Odd (y + (dirs i).2 / 2)) ∧
    (x + (dirs i).1 / 2, y + (dirs i).2 / 2) ≠ (x + (dirs i).1, y + (dirs i).2) ∧
    (x, y) ≠ (x + (dirs i).1, y + (dirs i).2) ∧
    adj4 (x, y) (x + (dirs i).1 / 2, y + (dirs i).2 / 2) ∧
    adj4 (x + (dirs i).1 / 2, y + (dirs i).2 / 2) (x + (dirs i).1, y + (dirs i).2) := by
  have hwz : (w : ℤ) % 2 = 1 := by
    obtain ⟨k, hk⟩ := hw; omega
  have hhz : (h : ℤ) % 2 = 1 := by
    obtain ⟨k, hk⟩ := hh; omega
  obtain ⟨a, ha⟩ := hx
  obtain ⟨b, hb⟩ := hy
  obtain ⟨hx0, hxw, hy0, hyh⟩ := hxy
  rcases dirs_cases i with hd | hd | hd | hd <;>
    rw [hd] at hn ⊢ <;>
    dsimp only at hn ⊢ <;>
    simp only [int_two_div_two, int_neg_two_div_two, int_zero_div_two] at hn ⊢ <;>
    obtain ⟨hn0, hnw, hn1, hnh⟩ := hn <;>
    refine ⟨⟨?_, ?_⟩, ?_, ?_, ?_, ?_, ?_, ?_, ?_⟩ <;>
    (try simp only [InnerAt, adj4, Int.odd_iff, Prod.mk.injEq, ne_eq, not_and]) <;>
    (try simp [InnerAt, adj4, Int.odd_iff, Prod.mk.injEq, not_and]) <;>
    omega

/-! ## The loop invariant -/

/-- All four lattice neighbors of `c` that are in bounds are already path:
`c` needs no further processing. -/
def ProcAt (w h : ℕ) (st : GenState) (c : ℤ × ℤ) : Prop :=
  ∀ i : Fin 4, InB w h (c.1 + (dirs i).1) (c.2 + (dirs i).2) →
    st.maze (c.1 + (dirs i).1) (c.2 + (dirs i).2) = 1

/-- The stack-independent part of the loop invariant. -/
structure InvA (w h : ℕ) (st : GenState) : Prop where
  zeroOne : ZeroOne st.maze
  start : st.maze START_X START_Y = 1
  stackInv : ∀ c ∈ st.stack, LatCell w h c ∧ st.maze c.1 c.2 = 1
  innerInv : ∀ a b : ℤ, st.maze a b = 1 → InnerAt w h a b
  connInv : ∀ a b : ℤ, st.maze a b = 1 → Reaches st.maze (START_X, START_Y) (a, b)
  carvedInv : ∀ a b : ℤ, st.maze a b = 1 ↔ (a, b) ∈ st.carved
  pushedNodup : st.pushed.Nodup
  pushedIff : ∀ c : ℤ × ℤ, c ∈ st.pushed ↔ (LatCell w h c ∧ st.maze c.1 c.2 = 1)
  edgesLen : st.edges.length + 1 = st.pushed.length

/-- Full invariant between loop iterations: every path lattice cell is either
still waiting on the stack or fully processed. -/
def LoopInv (w h : ℕ) (st : GenState) : Prop :=
  InvA w h st ∧
    ∀ c : ℤ × ℤ, LatCell w h c → st.maze c.1 c.2 = 1 →
      c ∈ st.stack ∨ ProcAt w h st c

/-- Invariant holding during the processing of the popped cell `(x, y)`: the
popped cell is exempt from the processed-or-stacked dichotomy until its own
pop finishes. -/
def InvMid (w h : ℕ) (x y : ℤ) (st : GenState) : Prop :=
  InvA w h st ∧ st.maze x y = 1 ∧
    ∀ c : ℤ × ℤ, LatCell w h c → st.maze c.1 c.2 = 1 →
      c ∈ st.stack ∨ c = (x, y) ∨ ProcAt w h st c

lemma extend_eq_of_guard (w h : ℕ) (x y : ℤ) (st : GenState) (d : ℤ × ℤ)
    (hg : readJS st.maze w h (x + d.1) (y + d.2) = some 0) :
    extend w h x y st d =
      { maze := setCell (setCell st.maze (x + d.1) (y + d.2) 1) (x + d.1 / 2) (y + d.2 / 2) 1
        stack := (x + d.1, y + d.2) :: st.stack
        carved := st.carved ++ [(x + d.1, y + d.2), (x + d.1 / 2, y + d.2 / 2)]
        pushed := st.pushed ++ [(x + d.1, y + d.2)]
        edges := st.edges ++ [((x, y), (x + d.1, y + d.2))]
        pops := st.pops } := by
  simp [extend, hg]

lemma extend_eq_of_not_guard (w h : ℕ) (x y : ℤ) (st : GenState) (d : ℤ × ℤ)
    (hg : ¬ readJS st.maze w h (x + d.1) (y + d.2) = some 0) :
    extend w h x y st d = st := by
  simp [extend, hg]

lemma Reaches_mono (m m' : MazeFn) (hmono : ∀ a b : ℤ, m a b = 1 → m' a b = 1)
    (p q : ℤ × ℤ) (hr : Reaches m p q) : Reaches m' p q :=
  Relation.ReflTransGen.mono (fun a b hab => ⟨hab.1, hmono b.1 b.2 hab.2⟩) hr

lemma setCell_zeroOne (m : MazeFn) (u v : ℤ) (hz : ZeroOne m) :
    ZeroOne (setCell m u v 1) := by
  intro a b
  by_cases hc : a = u ∧ b = v
  · right; simp [setCell, hc]
  · simpa [setCell, hc] using hz a b

/-- Preservation of the mid-pop invariant by the processing of one direction. -/
lemma extend_invMid (w h : ℕ) (hw : Odd w) (hh : Odd h) (x y : ℤ)
    (hlat : LatCell w h (x, y)) (st : GenState) (d : ℤ × ℤ)
    (hd : ∃ i : Fin 4, d = dirs i) (hmid : InvMid w h x y st) :
    InvMid w h x y (extend w h x y st d) := by
  obtain ⟨i, rfl⟩ := hd
  obtain ⟨hA, hxy, hproc⟩ := hmid
  by_cases hg : readJS st.maze w h (x + (dirs i).1) (y + (dirs i).2) = some 0
  · obtain ⟨hInB, hwall⟩ := (readJS_eq_some_zero_iff _ _ _ _ _).1 hg
    obtain ⟨⟨hnodd1, hnodd2⟩, hninner, hminner, hmnotodd, hmne, hxne, hadj1, hadj2⟩ :=
      dir_facts w h i x y hlat.2.1 hlat.2.2 hlat.1 hw hh hInB
    rw [extend_eq_of_guard w h x y st _ hg]
    set n1 := x + (dirs i).1 with hn1
    set n2 := y + (dirs i).2 with hn2
    set m1 := x + (dirs i).1 / 2 with hm1
    set m2 := y + (dirs i).2 / 2 with hm2
    set M := setCell (setCell st.maze n1 n2 1) m1 m2 1 with hM
    have hMval : ∀ a b : ℤ,
        M a b = 1 ↔ ((a = m1 ∧ b = m2) ∨ (a = n1 ∧ b = n2) ∨ st.maze a b = 1) := by
      intro a b
      rw [hM, setCell_one_eq_one_iff, setCell_one_eq_one_iff]
    have hMn : M n1 n2 = 1 := by
      rw [hMval]; right; left; exact ⟨rfl, rfl⟩
    have hMm : M m1 m2 = 1 := by
      rw [hMval]; left; exact ⟨rfl, rfl⟩
    have hMmono : ∀ a b : ℤ, st.maze a b = 1 → M a b = 1 := by
      intro a b hab; rw [hMval]; right; right; exact hab
    have hnpath : M x y = 1 := hMmono x y hxy
    have hnotpushed : (n1, n2) ∉ st.pushed := by
      intro hmem
      have := (hA.pushedIff (n1, n2)).1 hmem
      rw [hwall] at this
      exact absurd this.2 (by simp)
    have hreach0 : Reaches M (START_X, START_Y) (x, y) :=
      Reaches_mono st.maze M hMmono _ _ (hA.connInv x y hxy)
    have hreachm : Reaches M (START_X, START_Y) (m1, m2) :=
      hreach0.tail ⟨hadj1, hMm⟩
    have hreachn : Reaches M (START_X, START_Y) (n1, n2) :=
      hreachm.tail ⟨hadj2, hMn⟩
    refine ⟨⟨?_, ?_, ?_, ?_, ?_, ?_, ?_, ?_, ?_⟩, ?_, ?_⟩
    · -- zeroOne
      exact setCell_zeroOne _ _ _ (setCell_zeroOne _ _ _ hA.zeroOne)
    · -- start
      exact hMmono _ _ hA.start
    · -- stackInv
      intro c hc
      rcases List.mem_cons.1 hc with rfl | hc'
      · exact ⟨⟨hInB, hnodd1, hnodd2⟩, hMn⟩
      · obtain ⟨hl, hp⟩ := hA.stackInv c hc'
        exact ⟨hl, hMmono _ _ hp⟩
    · -- innerInv
      intro a b hab
      rcases (hMval a b).1 hab with he | he | he
      · rw [he.1, he.2]; exact hminner
      · rw [he.1, he.2]; exact hninner
      · exact hA.innerInv a b he
    · -- connInv
      intro a b hab
      rcases (hMval a b).1 hab with he | he | he
      · rw [he.1, he.2]; exact hreachm
      · rw [he.1, he.2]; exact hreachn
      · exact Reaches_mono st.maze M hMmono _ _ (hA.connInv a b he)
    · -- carvedInv
      intro a b
      rw [hMval]
      simp only [List.mem_append, List.mem_cons, List.mem_singleton,
        List.not_mem_nil, or_false, Prod.mk.injEq]
      rw [← not_iff_not]
      push_neg
      constructor
      · rintro ⟨hc1, hc2, hc3⟩
        refine ⟨fun hc => hc3 ((hA.carvedInv a b).2 hc), ?_, ?_⟩ <;> tauto
      · rintro ⟨hc1, hc2, hc3⟩
        refine ⟨?_, ?_, fun hc => hc1 ((hA.carvedInv a b).1 hc)⟩ <;> tauto
    · -- pushedNodup
      rw [List.nodup_append]
      exact ⟨hA.pushedNodup, List.nodup_singleton _,
        fun c hc hc' => by
          rw [List.mem_singleton] at hc'
          exact hnotpushed (hc' ▸ hc)⟩
    · -- pushedIff
      intro c
      simp only [List.mem_append, List.mem_singleton]
      constructor
      · rintro (hc | rfl)
        · obtain ⟨hl, hp⟩ := (hA.pushedIff c).1 hc
          exact ⟨hl, hMmono _ _ hp⟩
        · exact ⟨⟨hInB, hnodd1, hnodd2⟩, hMn⟩
      · rintro ⟨hl, hp⟩
        rcases (hMval c.1 c.2).1 hp with he | he | he
        · exfalso
          obtain ⟨hbb, ho1, ho2⟩ := hl
          rw [he.1] at ho1
          rw [he.2] at ho2
          exact hmnotodd ⟨ho1, ho2⟩
        · right
          exact Prod.ext_iff.2 ⟨he.1, he.2⟩
        · left; exact (hA.pushedIff c).2 ⟨hl, he⟩
    · -- edgesLen
      simp only [List.length_append, List.length_singleton]
      have := hA.edgesLen
      omega
    · -- popped cell still path
      exact hnpath
    · -- mid-pop processed-or-stacked dichotomy
      intro c hcl hcp
      rcases (hMval c.1 c.2).1 hcp with he | he | he
      · exfalso
        obtain ⟨hbb, ho1, ho2⟩ := hcl
        rw [he.1] at ho1
        rw [he.2] at ho2
        exact hmnotodd ⟨ho1, ho2⟩
      · left
        have hc : c = (n1, n2) := Prod.ext_iff.2 ⟨he.1, he.2⟩
        rw [hc]
        exact List.mem_cons_self _ _
      · rcases hproc c hcl he with hc | hc | hc
        · left; exact List.mem_cons_of_mem _ hc
        · right; left; exact hc
        · right; right
          intro j hj
          exact hMmono _ _ (hc j hj)
  · rw [extend_eq_of_not_guard w h x y st _ hg]
    exact ⟨hA, hxy, hproc⟩

lemma readJS_of_inB (m : MazeFn) (w h : ℕ) (x y : ℤ) (hb : InB w h x y) :
    readJS m w h x y = some (m x y) := by
  obtain ⟨h1, h2, h3, h4⟩ := hb
  simp [readJS, h1, h2, h3, h4]

lemma nbr_ne_mid (i : Fin 4) (x y : ℤ) :
    ¬(x + (dirs i).1 = x + (dirs i).1 / 2 ∧ y + (dirs i).2 = y + (dirs i).2 / 2) := by
  rcases dirs_cases i with hd | hd | hd | hd <;> rw [hd] <;> dsimp only <;>
    simp only [int_two_div_two, int_neg_two_div_two, int_zero_div_two] <;> omega

lemma carvePop_invMid (w h : ℕ) (hw : Odd w) (hh : Odd h) (x y : ℤ)
    (hlat : LatCell w h (x, y)) (order : List (ℤ × ℤ))
    (horder : ∀ d ∈ order, ∃ i : Fin 4, d = dirs i) (st : GenState)
    (hmid : InvMid w h x y st) : InvMid w h x y (carvePop w h order x y st) :=
  carvePop_pres w h x y (InvMid w h x y) order
    (fun st' d hd hst' => extend_invMid w h hw hh x y hlat st' d (horder d hd) hst')
    st hmid

lemma carvePop_covers (w h : ℕ) (x y : ℤ) (order : List (ℤ × ℤ)) (st : GenState)
    (hz : ZeroOne st.maze) (i : Fin 4) (hmem : dirs i ∈ order)
    (hin : InB w h (x + (dirs i).1) (y + (dirs i).2)) :
    (carvePop w h order x y st).maze (x + (dirs i).1) (y + (dirs i).2) = 1 := by
  obtain ⟨l1, l2, rfl⟩ := List.append_of_mem hmem
  have hsplit : carvePop w h (l1 ++ dirs i :: l2) x y st =
      carvePop w h l2 x y
        (extend w h x y (carvePop w h l1 x y st) (dirs i)) := by
    simp [carvePop, List.foldl_append]
  rw [hsplit]
  apply carvePop_mono
  set S := carvePop w h l1 x y st with hS
  have hzS : ZeroOne S.maze := carvePop_zeroOne w h l1 x y st hz
  by_cases hgT : readJS S.maze w h (x + (dirs i).1) (y + (dirs i).2) = some 0
  · rw [extend_eq_of_guard w h x y S _ hgT]
    show setCell (setCell S.maze _ _ 1) _ _ 1 _ _ = 1
    rw [setCell_of_ne _ _ _ _ _ _ (nbr_ne_mid i x y), setCell_same]
  · rw [extend_eq_of_not_guard w h x y S _ hgT]
    rw [readJS_of_inB S.maze w h _ _ hin] at hgT
    rcases hzS (x + (dirs i).1) (y + (dirs i).2) with h0 | h1
    · exact absurd (by rw [h0]) hgT
    · exact h1

/-- One iteration of the loop preserves the invariant, provided the shuffle
at this iteration produced a genuine permutation of the directions. -/
lemma pop_loopInv (w h : ℕ) (hw : Odd w) (hh : Odd h) (o : ℕ → Fin 4 → Fin 4)
    (hsurj : ∀ k, Function.Surjective (o k)) (st : GenState) (x y : ℤ)
    (rest : List (ℤ × ℤ)) (hstk : st.stack = (x, y) :: rest)
    (hinv : LoopInv w h st) :
    LoopInv w h
      (carvePop w h (orderAt o st.pops) x y
        { st with stack := rest, pops := st.pops + 1 }) := by
  obtain ⟨hA, hP⟩ := hinv
  obtain ⟨hlat, hxy⟩ := hA.stackInv (x, y) (by rw [hstk]; exact List.mem_cons_self _ _)
  set stP : GenState := { st with stack := rest, pops := st.pops + 1 } with hstP
  have hAP : InvA w h stP :=
    ⟨hA.zeroOne, hA.start,
      fun c hc => hA.stackInv c (by rw [hstk]; exact List.mem_cons_of_mem _ hc),
      hA.innerInv, hA.connInv, hA.carvedInv, hA.pushedNodup, hA.pushedIff, hA.edgesLen⟩
  have hmidP : InvMid w h x y stP := by
    refine ⟨hAP, hxy, fun c hcl hcp => ?_⟩
    rcases hP c hcl hcp with hc | hc
    · rw [hstk] at hc
      rcases List.mem_cons.1 hc with rfl | hc'
      · right; left; rfl
      · left; exact hc'
    · right; right
      exact hc
  have hres : InvMid w h x y (carvePop w h (orderAt o st.pops) x y stP) :=
    carvePop_invMid w h hw hh x y hlat (orderAt o st.pops)
      (orderAt_mem_dirs o st.pops) stP hmidP
  refine ⟨hres.1, fun c hcl hcp => ?_⟩
  rcases hres.2.2 c hcl hcp with hc | hc | hc
  · left; exact hc
  · right
    intro j hj
    rw [hc]
    exact carvePop_covers w h x y (orderAt o st.pops) stP hAP.zeroOne j
      (dirs_mem_orderAt o st.pops (hsurj st.pops) j) (by rw [hc] at hj; exact hj)
  · right; exact hc

lemma carveLoop_loopInv (w h : ℕ) (hw : Odd w) (hh : Odd h) (o : ℕ → Fin 4 → Fin 4)
    (hsurj : ∀ k, Function.Surjective (o k)) (fuel : ℕ) (st : GenState)
    (hinv : LoopInv w h st) : LoopInv w h (carveLoop w h o fuel st) :=
  carveLoop_pres w h o (LoopInv w h)
    (fun st' x y rest hstk hst' => pop_loopInv w h hw hh o hsurj st' x y rest hstk hst')
    fuel st hinv

lemma initState_maze_iff (a b : ℤ) :
    initState.maze a b = 1 ↔ a = 1 ∧ b = 1 := by
  show setCell (fun _ _ => 0) START_X START_Y 1 a b = 1 ↔ _
  rw [setCell_one_eq_one_iff]
  simp [START_X, START_Y]

lemma initState_loopInv (w h : ℕ) (h3w : 3 ≤ w) (h3h : 3 ≤ h) :
    LoopInv w h initState := by
  have hwi : (3 : ℤ) ≤ (w : ℤ) := by exact_mod_cast h3w
  have hhi : (3 : ℤ) ≤ (h : ℤ) := by exact_mod_cast h3h
  have hlat : LatCell w h (1, 1) :=
    ⟨⟨by omega, by omega, by omega, by omega⟩, ⟨0, by ring⟩, ⟨0, by ring⟩⟩
  have hmaze : initState.maze 1 1 = 1 := (initState_maze_iff 1 1).2 ⟨rfl, rfl⟩
  refine ⟨⟨?_, ?_, ?_, ?_, ?_, ?_, ?_, ?_, ?_⟩, ?_⟩
  · intro a b
    by_cases hc : a = START_X ∧ b = START_Y
    · right; simp [initState, setCell, hc]
    · left; simp [initState, setCell, hc]
  · exact (initState_maze_iff 1 1).2 ⟨rfl, rfl⟩
  · intro c hc
    have : c = (1, 1) := by
      simpa [initState, START_X, START_Y] using hc
    rw [this]
    exact ⟨hlat, hmaze⟩
  · intro a b hab
    obtain ⟨rfl, rfl⟩ := (initState_maze_iff a b).1 hab
    exact ⟨by omega, by omega, by omega, by omega⟩
  · intro a b hab
    obtain ⟨rfl, rfl⟩ := (initState_maze_iff a b).1 hab
    exact Relation.ReflTransGen.refl
  · intro a b
    rw [initState_maze_iff]
    simp [initState, START_X, START_Y]
  · simp [initState]
  · intro c
    constructor
    · intro hc
      have : c = (1, 1) := by
        simpa [initState, START_X, START_Y] using hc
      rw [this]
      exact ⟨hlat, hmaze⟩
    · rintro ⟨hl, hp⟩
      have : c = (1, 1) := by
        have := (initState_maze_iff c.1 c.2).1 hp
        exact Prod.ext_iff.2 ⟨this.1, this.2⟩
      simp [initState, START_X, START_Y, this]
  · simp [initState]
  · intro c hcl hcp
    left
    have : c = (1, 1) := by
      have := (initState_maze_iff c.1 c.2).1 hcp
      exact Prod.ext_iff.2 ⟨this.1, this.2⟩
    simp [initState, START_X, START_Y, this]

/-! ## Decomposition of one pop into its pushes -/

/-- Processing one popped cell appends some list `news` of freshly carved
neighbors: they end up on top of the stack (in reverse push order) and at the
end of the push log, one edge is recorded per push, at most one push happens
per direction of the shuffled order, and every pushed cell was not yet path
before the pop, is in bounds, is the two-step neighbor of the popped cell in
some direction of the order, and is path afterwards together with the
midpoint carved with it. -/
lemma carvePop_news (w h : ℕ) (x y : ℤ) (order : List (ℤ × ℤ)) (st : GenState) :
    ∃ news : List (ℤ × ℤ),
      (carvePop w h order x y st).stack = news.reverse ++ st.stack ∧
      (carvePop w h order x y st).pushed = st.pushed ++ news ∧
      (carvePop w h order x y st).edges.length = st.edges.length + news.length ∧
      news.length ≤ order.length ∧
      ∀ c ∈ news,
        st.maze c.1 c.2 ≠ 1 ∧
        InB w h c.1 c.2 ∧
        (carvePop w h order x y st).maze c.1 c.2 = 1 ∧
        ∃ d ∈ order, c = (x + d.1, y + d.2) ∧
          (carvePop w h order x y st).maze (x + d.1 / 2) (y + d.2 / 2) = 1 := by
  induction order generalizing st with
  | nil =>
    refine ⟨[], by simp [carvePop], by simp [carvePop], by simp [carvePop], by simp, ?_⟩
    intro c hc
    cases hc
  | cons d rest ih =>
    have hfold : carvePop w h (d :: rest) x y st =
        carvePop w h rest x y (extend w h x y st d) := by
      simp [carvePop]
    by_cases hg : readJS st.maze w h (x + d.1) (y + d.2) = some 0
    · obtain ⟨hInB, hwall⟩ := (readJS_eq_some_zero_iff _ _ _ _ _).1 hg
      set st1 := extend w h x y st d with hst1
      have hst1eq : st1 =
          { maze := setCell (setCell st.maze (x + d.1) (y + d.2) 1) (x + d.1 / 2) (y + d.2 / 2) 1
            stack := (x + d.1, y + d.2) :: st.stack
            carved := st.carved ++ [(x + d.1, y + d.2), (x + d.1 / 2, y + d.2 / 2)]
            pushed := st.pushed ++ [(x + d.1, y + d.2)]
            edges := st.edges ++ [((x, y), (x + d.1, y + d.2))]
            pops := st.pops } := extend_eq_of_guard w h x y st d hg
      obtain ⟨news', hstk', hpsh', hedg', hlen', hfacts'⟩ := ih st1
      refine ⟨(x + d.1, y + d.2) :: news', ?_, ?_, ?_, ?_, ?_⟩
      · rw [hfold, hstk', hst1eq]
        simp
      · rw [hfold, hpsh', hst1eq]
        simp
      · rw [hfold, hedg', hst1eq]
        simp [Nat.add_assoc, Nat.add_comm 1]
      · simp only [List.length_cons, List.length_cons]
        omega
      · intro c hc
        rcases List.mem_cons.1 hc with rfl | hc'
        · refine ⟨by rw [hwall]; simp, hInB, ?_, d, List.mem_cons_self _ _, rfl, ?_⟩
          · rw [hfold]
            apply carvePop_mono
            rw [hst1eq]
            show setCell (setCell st.maze _ _ 1) _ _ 1 _ _ = 1
            by_cases hmn : x + d.1 = x + d.1 / 2 ∧ y + d.2 = y + d.2 / 2
            · simp [setCell, hmn]
            · rw [setCell_of_ne _ _ _ _ _ _ hmn, setCell_same]
          · rw [hfold]
            apply carvePop_mono
            rw [hst1eq]
            show setCell (setCell st.maze _ _ 1) _ _ 1 _ _ = 1
            rw [setCell_same]
        · obtain ⟨hnot1, hinb, hpath, d', hd', hform, hmid⟩ := hfacts' c hc'
          refine ⟨?_, hinb, by rw [hfold]; exact hpath, d',
            List.mem_cons_of_mem _ hd', hform, by rw [hfold]; exact hmid⟩
          intro hcontra
          exact hnot1 (extend_mono w h x y c.1 c.2 st d hcontra)
    · have hid : extend w h x y st d = st := extend_eq_of_not_guard w h x y st d hg
      obtain ⟨news', hstk', hpsh', hedg', hlen', hfacts'⟩ := ih st
      refine ⟨news', ?_, ?_, ?_, ?_, ?_⟩
      · rw [hfold, hid]; exact hstk'
      · rw [hfold, hid]; exact hpsh'
      · rw [hfold, hid]; exact hedg'
      · exact le_trans hlen' (by simp)
      · intro c hc
        obtain ⟨hnot1, hinb, hpath, d', hd', hform, hmid⟩ := hfacts' c hc
        exact ⟨hnot1, hinb, by rw [hfold, hid]; exact hpath, d',
          List.mem_cons_of_mem _ hd', hform, by rw [hfold, hid]; exact hmid⟩

/-! ## Termination: the measure `stack length + remaining wall lattice cells` -/

lemma latFinset_mem (w h : ℕ) (c : ℤ × ℤ) :
    c ∈ latFinset w h ↔ LatCell w h c := by
  simp only [latFinset, boxFinset, Finset.mem_filter, Finset.mem_product,
    Finset.mem_Icc, LatCell, InB]
  constructor
  · rintro ⟨⟨⟨h1, h2⟩, h3, h4⟩, h5, h6⟩
    exact ⟨⟨h1, by omega, h3, by omega⟩, h5, h6⟩
  · rintro ⟨⟨h1, h2, h3, h4⟩, h5, h6⟩
    exact ⟨⟨⟨h1, by omega⟩, h3, by omega⟩, h5, h6⟩

lemma boxFinset_card (w h : ℕ) : (boxFinset w h).card = w * h := by
  rw [boxFinset, Finset.card_product, Int.card_Icc, Int.card_Icc]
  simp

lemma latFinset_card_le (w h : ℕ) : (latFinset w h).card ≤ w * h := by
  rw [← boxFinset_card w h]
  exact Finset.card_filter_le _ _

/-- One loop iteration strictly decreases
`stack length + number of wall lattice cells`. -/
lemma pop_measure (w h : ℕ) (hw : Odd w) (hh : Odd h) (o : ℕ → Fin 4 → Fin 4)
    (hsurj : ∀ k, Function.Surjective (o k)) (st : GenState) (x y : ℤ)
    (rest : List (ℤ × ℤ)) (hstk : st.stack = (x, y) :: rest)
    (hinv : LoopInv w h st) :
    (carvePop w h (orderAt o st.pops) x y
        { st with stack := rest, pops := st.pops + 1 }).stack.length +
      wallLat w h (carvePop w h (orderAt o st.pops) x y
        { st with stack := rest, pops := st.pops + 1 }) + 1 ≤
    st.stack.length + wallLat w h st := by
  obtain ⟨hA, hP⟩ := hinv
  obtain ⟨hlat, hxy⟩ := hA.stackInv (x, y) (by rw [hstk]; exact List.mem_cons_self _ _)
  set stP : GenState := { st with stack := rest, pops := st.pops + 1 } with hstP
  set res := carvePop w h (orderAt o st.pops) x y stP with hres
  have hresinv : LoopInv w h res :=
    pop_loopInv w h hw hh o hsurj st x y rest hstk ⟨hA, hP⟩
  obtain ⟨news, hstack, hpushed, hedges, hlen, hfacts⟩ :=
    carvePop_news w h x y (orderAt o st.pops) stP
  have hnodup : news.Nodup := by
    have := hresinv.1.pushedNodup
    rw [← hres] at hpushed
    rw [hpushed] at this
    exact (List.nodup_append.1 this).2.1
  have hmazeP : stP.maze = st.maze := rfl
  -- the three finset facts
  have hWsub : (latFinset w h).filter (fun c => res.maze c.1 c.2 = 0) ⊆
      (latFinset w h).filter (fun c => st.maze c.1 c.2 = 0) := by
    intro c hc
    rw [Finset.mem_filter] at hc ⊢
    refine ⟨hc.1, ?_⟩
    rcases hA.zeroOne c.1 c.2 with h0 | h1
    · exact h0
    · exfalso
      have : res.maze c.1 c.2 = 1 := by
        rw [hres]
        exact carvePop_mono w h _ x y c.1 c.2 stP (by rw [hmazeP]; exact h1)
      rw [hc.2] at this
      cases this
  have hnewssub : news.toFinset ⊆
      (latFinset w h).filter (fun c => st.maze c.1 c.2 = 0) := by
    intro c hc
    rw [List.mem_toFinset] at hc
    obtain ⟨hnot1, hinb, hpath, d, hd, hform, hmid⟩ := hfacts c hc
    rw [Finset.mem_filter, latFinset_mem]
    obtain ⟨i, rfl⟩ := orderAt_mem_dirs o st.pops d hd
    have hgeo := dir_facts w h i x y hlat.2.1 hlat.2.2 hlat.1 hw hh (by rw [hform] at hinb; exact hinb)
    have hodd1 : Odd c.1 := by rw [hform]; exact hgeo.1.1
    have hodd2 : Odd c.2 := by rw [hform]; exact hgeo.1.2
    refine ⟨⟨hinb, hodd1, hodd2⟩, ?_⟩
    rcases hA.zeroOne c.1 c.2 with h0 | h1
    · exact h0
    · exact absurd h1 (by rw [hmazeP] at hnot1; exact hnot1)
  have hdisj : Disjoint ((latFinset w h).filter (fun c => res.maze c.1 c.2 = 0))
      news.toFinset := by
    rw [Finset.disjoint_right]
    intro c hc hc'
    rw [List.mem_toFinset] at hc
    obtain ⟨hnot1, hinb, hpath, _⟩ := hfacts c hc
    rw [Finset.mem_filter] at hc'
    rw [← hres] at hpath
    rw [hpath] at hc'
    cases hc'.2
  have hcard : wallLat w h res + news.length ≤ wallLat w h st := by
    have h1 : ((latFinset w h).filter (fun c => res.maze c.1 c.2 = 0) ∪ news.toFinset).card =
        wallLat w h res + news.toFinset.card :=
      Finset.card_union_of_disjoint hdisj
    have h2 : ((latFinset w h).filter (fun c => res.maze c.1 c.2 = 0) ∪ news.toFinset) ⊆
        (latFinset w h).filter (fun c => st.maze c.1 c.2 = 0) :=
      Finset.union_subset hWsub hnewssub
    have h3 := Finset.card_le_card h2
    rw [h1] at h3
    rw [List.toFinset_card_of_nodup hnodup] at h3
    exact h3
  have hstlen : res.stack.length = news.length + rest.length := by
    rw [← hres] at hstack
    rw [hstack]
    simp
  rw [hstlen, hstk]
  simp only [List.length_cons]
  omega

/-- With invariant and enough fuel for the measure, the loop drains the
stack completely. -/
lemma carveLoop_empties (w h : ℕ) (hw : Odd w) (hh : Odd h) (o : ℕ → Fin 4 → Fin 4)
    (hsurj : ∀ k, Function.Surjective (o k)) :
    ∀ fuel st, LoopInv w h st → st.stack.length + wallLat w h st ≤ fuel →
      (carveLoop w h o fuel st).stack = [] := by
  intro fuel
  induction fuel with
  | zero =>
    intro st _ hm
    have : st.stack.length = 0 := by omega
    rw [carveLoop]
    exact List.length_eq_zero.1 this
  | succ n ih =>
    intro st hinv hm
    match hstk : st.stack with
    | [] =>
      simp [carveLoop, hstk]
    | (x, y) :: rest =>
      have hnext := pop_measure w h hw hh o hsurj st x y rest hstk hinv
      have hinv' := pop_loopInv w h hw hh o hsurj st x y rest hstk hinv
      have : (carveLoop w h o (n + 1) st) =
          carveLoop w h o n
            (carvePop w h (orderAt o st.pops) x y
              { st with stack := rest, pops := st.pops + 1 }) := by
        rw [carveLoop, hstk]
      rw [this]
      apply ih _ hinv'
      rw [hstk] at hnext hm
      simp only [List.length_cons] at hnext hm
      omega

lemma extend_pops (w h : ℕ) (x y : ℤ) (st : GenState) (d : ℤ × ℤ) :
    (extend w h x y st d).pops = st.pops := by
  by_cases hg : readJS st.maze w h (x + d.1) (y + d.2) = some 0
  · rw [extend_eq_of_guard w h x y st d hg]
  · rw [extend_eq_of_not_guard w h x y st d hg]

lemma carvePop_pops (w h : ℕ) (order : List (ℤ × ℤ)) (x y : ℤ) (st : GenState) :
    (carvePop w h order x y st).pops = st.pops :=
  carvePop_pres w h x y (fun s => s.pops = st.pops) order
    (fun s d _ hs => by
      show (extend w h x y s d).pops = st.pops
      rw [extend_pops]
      exact hs) st rfl

lemma carveLoop_pops_le (w h : ℕ) (o : ℕ → Fin 4 → Fin 4) :
    ∀ fuel st, (carveLoop w h o fuel st).pops ≤ st.pops + fuel := by
  intro fuel
  induction fuel with
  | zero => intro st; rw [carveLoop]; omega
  | succ n ih =>
    intro st
    match hstk : st.stack with
    | [] =>
      have heq : carveLoop w h o (n + 1) st = st := by
        rw [carveLoop, hstk]
      rw [heq]
      omega
    | (x, y) :: rest =>
      have heq : carveLoop w h o (n + 1) st =
          carveLoop w h o n
            (carvePop w h (orderAt o st.pops) x y
              { st with stack := rest, pops := st.pops + 1 }) := by
        rw [carveLoop, hstk]
      rw [heq]
      have h1 := ih (carvePop w h (orderAt o st.pops) x y
        { st with stack := rest, pops := st.pops + 1 })
      have h2 : (carvePop w h (orderAt o st.pops) x y
          { st with stack := rest, pops := st.pops + 1 }).pops = st.pops + 1 :=
        carvePop_pops w h _ x y _
      omega

/-! ## After the stack empties, the whole lattice is carved -/

lemma setCell_eq_self (m : MazeFn) (x y : ℤ) (hm : m x y = 1) :
    setCell m x y 1 = m := by
  funext a b
  by_cases hc : a = x ∧ b = y
  · rw [hc.1, hc.2, setCell_same, hm]
  · rw [setCell_of_ne _ _ _ _ _ _ hc]

/-- When the stack has emptied, every in-bounds odd-odd cell is path: the
processed-or-stacked dichotomy plus connectivity of the lattice graph. -/
lemma final_lattice_full (w h : ℕ) (hw : Odd w) (hh : Odd h)
    (h3w : 3 ≤ w) (h3h : 3 ≤ h) (st : GenState) (hinv : LoopInv w h st)
    (hempty : st.stack = []) :
    ∀ c : ℤ × ℤ, LatCell w h c → st.maze c.1 c.2 = 1 := by
  have hproc : ∀ c : ℤ × ℤ, LatCell w h c → st.maze c.1 c.2 = 1 → ProcAt w h st c := by
    intro c hcl hcp
    rcases hinv.2 c hcl hcp with hc | hc
    · rw [hempty] at hc
      cases hc
    · exact hc
  have hwi : (3 : ℤ) ≤ (w : ℤ) := by exact_mod_cast h3w
  have hhi : (3 : ℤ) ≤ (h : ℤ) := by exact_mod_cast h3h
  have hstart : st.maze 1 1 = 1 := hinv.1.start
  -- fill the first column, then every column
  have hcol : ∀ j : ℕ, (2 * (j : ℤ) + 1) < (h : ℤ) → st.maze 1 (2 * (j : ℤ) + 1) = 1 := by
    intro j
    induction j with
    | zero =>
      intro _
      simpa using hstart
    | succ n ihn =>
      intro hbound
      push_cast at hbound
      have hb' : (2 * (n : ℤ) + 1) < (h : ℤ) := by omega
      have hprev := ihn hb'
      have hlatp : LatCell w h (1, 2 * (n : ℤ) + 1) :=
        ⟨⟨by omega, by omega, by omega, by omega⟩, ⟨0, by ring⟩, ⟨n, by ring⟩⟩
      have hstep := hproc (1, 2 * (n : ℤ) + 1) hlatp hprev 2
      have hib : InB w h ((1 : ℤ) + (dirs 2).1) ((2 * (n : ℤ) + 1) + (dirs 2).2) := by
        rw [dirs_val_2]
        exact ⟨by omega, by omega, by omega, by omega⟩
      have := hstep hib
      rw [dirs_val_2] at this
      dsimp only at this
      have hcast : (2 * ((n : ℤ) + 1) + 1) = (2 * (n : ℤ) + 1) + 2 := by ring
      push_cast
      rw [hcast]
      simpa using this
  have hall : ∀ i j : ℕ, (2 * (i : ℤ) + 1) < (w : ℤ) → (2 * (j : ℤ) + 1) < (h : ℤ) →
      st.maze (2 * (i : ℤ) + 1) (2 * (j : ℤ) + 1) = 1 := by
    intro i
    induction i with
    | zero =>
      intro j hbw hbh
      simpa using hcol j hbh
    | succ n ihn =>
      intro j hbw hbh
      push_cast at hbw
      have hb' : (2 * (n : ℤ) + 1) < (w : ℤ) := by omega
      have hprev := ihn j hb' hbh
      have hlatp : LatCell w h (2 * (n : ℤ) + 1, 2 * (j : ℤ) + 1) :=
        ⟨⟨by omega, by omega, by omega, by omega⟩, ⟨n, by ring⟩, ⟨j, by ring⟩⟩
      have hstep := hproc (2 * (n : ℤ) + 1, 2 * (j : ℤ) + 1) hlatp hprev 0
      have hib : InB w h ((2 * (n : ℤ) + 1) + (dirs 0).1) ((2 * (j : ℤ) + 1) + (dirs 0).2) := by
        rw [dirs_val_0]
        exact ⟨by omega, by omega, by omega, by omega⟩
      have := hstep hib
      rw [dirs_val_0] at this
      dsimp only at this
      have hcast : (2 * ((n : ℤ) + 1) + 1) = (2 * (n : ℤ) + 1) + 2 := by ring
      push_cast
      rw [hcast]
      simpa using this
  intro c hc
  obtain ⟨⟨hc1, hc2, hc3, hc4⟩, ⟨a, ha⟩, ⟨b, hb⟩⟩ := hc
  have ha0 : 0 ≤ a := by omega
  have hb0 : 0 ≤ b := by omega
  lift a to ℕ using ha0 with i
  lift b to ℕ using hb0 with j
  have := hall i j (by omega) (by omega)
  rw [ha, hb]
  convert this using 2 <;> ring

/-! ## The state at the end of generation -/

/-- The loop state after `n` iterations of the carving loop (the whole run
uses `width * height` iterations, which `C7` shows is enough). -/
def loopStateAfter (width height : ℕ) (o : ℕ → Fin 4 → Fin 4) (n : ℕ) : GenState :=
  carveLoop width height o n initState

lemma loopStateAfter_loopInv (w h : ℕ) (hw : Odd w) (hh : Odd h)
    (h3w : 3 ≤ w) (h3h : 3 ≤ h) (o : ℕ → Fin 4 → Fin 4)
    (hsurj : ∀ k, Function.Surjective (o k)) (n : ℕ) :
    LoopInv w h (loopStateAfter w h o n) :=
  carveLoop_loopInv w h hw hh o hsurj n initState (initState_loopInv w h h3w h3h)

lemma initState_measure (w h : ℕ) (h3w : 3 ≤ w) (h3h : 3 ≤ h) :
    initState.stack.length + wallLat w h initState ≤ w * h := by
  have hwi : (3 : ℤ) ≤ (w : ℤ) := by exact_mod_cast h3w
  have hhi : (3 : ℤ) ≤ (h : ℤ) := by exact_mod_cast h3h
  have hlat : (1, 1) ∈ latFinset w h :=
    (latFinset_mem w h (1, 1)).2
      ⟨⟨by omega, by omega, by omega, by omega⟩, ⟨0, by ring⟩, ⟨0, by ring⟩⟩
  have hnot : (1, 1) ∉ (latFinset w h).filter (fun c => initState.maze c.1 c.2 = 0) := by
    rw [Finset.mem_filter]
    rintro ⟨-, habs⟩
    have := (initState_maze_iff 1 1).2 ⟨rfl, rfl⟩
    rw [habs] at this
    cases this
  have hss : (latFinset w h).filter (fun c => initState.maze c.1 c.2 = 0) ⊂ latFinset w h :=
    (Finset.ssubset_iff_of_subset (Finset.filter_subset _ _)).2 ⟨(1, 1), hlat, hnot⟩
  have hcard := Finset.card_lt_card hss
  have hle := latFinset_card_le w h
  have hlen : initState.stack.length = 1 := by simp [initState]
  rw [hlen]
  unfold wallLat
  omega

lemma loopEnd_empty (w h : ℕ) (hw : Odd w) (hh : Odd h)
    (h3w : 3 ≤ w) (h3h : 3 ≤ h) (o : ℕ → Fin 4 → Fin 4)
    (hsurj : ∀ k, Function.Surjective (o k)) :
    (loopStateAfter w h o (w * h)).stack = [] :=
  carveLoop_empties w h hw hh o hsurj (w * h) initState
    (initState_loopInv w h h3w h3h) (initState_measure w h h3w h3h)

lemma goal_latCell (w h : ℕ) (hw : Odd w) (hh : Odd h) (h3w : 3 ≤ w) (h3h : 3 ≤ h) :
    LatCell w h (GOAL_X w, GOAL_Y h) := by
  have hwz : (w : ℤ) % 2 = 1 := by obtain ⟨k, hk⟩ := hw; omega
  have hhz : (h : ℤ) % 2 = 1 := by obtain ⟨k, hk⟩ := hh; omega
  have hwi : (3 : ℤ) ≤ (w : ℤ) := by exact_mod_cast h3w
  have hhi : (3 : ℤ) ≤ (h : ℤ) := by exact_mod_cast h3h
  refine ⟨⟨?_, ?_, ?_, ?_⟩, ?_, ?_⟩ <;>
    simp only [GOAL_X, GOAL_Y, Int.odd_iff] <;> omega

lemma loopEnd_goal_path (w h : ℕ) (hw : Odd w) (hh : Odd h)
    (h3w : 3 ≤ w) (h3h : 3 ≤ h) (o : ℕ → Fin 4 → Fin 4)
    (hsurj : ∀ k, Function.Surjective (o k)) :
    (loopStateAfter w h o (w * h)).maze (GOAL_X w) (GOAL_Y h) = 1 :=
  final_lattice_full w h hw hh h3w h3h _
    (loopStateAfter_loopInv w h hw hh h3w h3h o hsurj (w * h))
    (loopEnd_empty w h hw hh h3w h3h o hsurj) (GOAL_X w, GOAL_Y h)
    (goal_latCell w h hw hh h3w h3h)

/-- The post-loop forcing of the goal cell does not change the maze. -/
lemma genFn_eq_loopEnd (w h : ℕ) (hw : Odd w) (hh : Odd h)
    (h3w : 3 ≤ w) (h3h : 3 ≤ h) (o : ℕ → Fin 4 → Fin 4)
    (hsurj : ∀ k, Function.Surjective (o k)) :
    genFn w h o = (loopStateAfter w h o (w * h)).maze :=
  setCell_eq_self _ _ _ (loopEnd_goal_path w h hw hh h3w h3h o hsurj)

lemma genFn_mono (w h : ℕ) (o : ℕ → Fin 4 → Fin 4) (a b : ℤ)
    (hab : initState.maze a b = 1) : genFn w h o a b = 1 := by
  show setCell (carveLoop w h o (w * h) initState).maze (GOAL_X w) (GOAL_Y h) 1 a b = 1
  rw [setCell_one_eq_one_iff]
  right
  exact carveLoop_mono w h o (w * h) a b initState hab

lemma genFn_start (w h : ℕ) (o : ℕ → Fin 4 → Fin 4) :
    genFn w h o START_X START_Y = 1 :=
  genFn_mono w h o _ _ ((initState_maze_iff 1 1).2 ⟨rfl, rfl⟩)

lemma genFn_goal (w h : ℕ) (o : ℕ → Fin 4 → Fin 4) :
    genFn w h o (GOAL_X w) (GOAL_Y h) = 1 := by
  show setCell _ (GOAL_X w) (GOAL_Y h) 1 _ _ = 1
  rw [setCell_same]

lemma innerAt_inB (w h : ℕ) (x y : ℤ) (hi : InnerAt w h x y) : InB w h x y := by
  obtain ⟨h1, h2, h3, h4⟩ := hi
  exact ⟨by omega, by omega, by omega, by omega⟩

lemma genFn_inner (w h : ℕ) (hw : Odd w) (hh : Odd h) (h3w : 3 ≤ w) (h3h : 3 ≤ h)
    (o : ℕ → Fin 4 → Fin 4) (hsurj : ∀ k, Function.Surjective (o k))
    (a b : ℤ) (hab : genFn w h o a b = 1) : InnerAt w h a b := by
  rw [genFn_eq_loopEnd w h hw hh h3w h3h o hsurj] at hab
  exact (loopStateAfter_loopInv w h hw hh h3w h3h o hsurj (w * h)).1.innerInv a b hab

lemma genFn_zeroOne (w h : ℕ) (o : ℕ → Fin 4 → Fin 4) : ZeroOne (genFn w h o) := by
  intro a b
  show setCell (carveLoop w h o (w * h) initState).maze (GOAL_X w) (GOAL_Y h) 1 a b = 0 ∨ _ = 1
  have hz : ZeroOne (carveLoop w h o (w * h) initState).maze := by
    apply carveLoop_zeroOne
    intro a' b'
    by_cases hc : a' = START_X ∧ b' = START_Y
    · right; simp [initState, setCell, hc]
    · left; simp [initState, setCell, hc]
  exact setCell_zeroOne _ _ _ hz a b

/-! ## Reading the materialized grid -/

lemma generateMaze_get (w h : ℕ) (o : ℕ → Fin 4 → Fin 4) (x y : ℕ)
    (hx : x < w) (hy : y < h) :
    ((generateMaze w h o).get? y).bind (fun r => r.get? x) =
      some (genFn w h o (x : ℤ) (y : ℤ)) := by
  unfold generateMaze mazeList
  rw [List.get?_map, List.get?_range hy]
  simp only [Option.map_some', Option.some_bind]
  rw [List.get?_map, List.get?_range hx]
  rfl

lemma canMoveTo_mazeList (m : MazeFn) (w h : ℕ) (x y : ℤ) :
    canMoveTo (mazeList m w h) x y = true ↔ (InB w h x y ∧ m x y = 1) := by
  unfold canMoveTo jsGet
  by_cases hy0 : y < 0
  · rw [if_pos hy0]
    simp only [Option.none_bind]
    constructor
    · intro hc; cases hc
    · rintro ⟨⟨-, -, hy, -⟩, -⟩
      omega
  · push_neg at hy0
    rw [if_neg (by omega)]
    unfold mazeList
    rw [List.get?_map]
    by_cases hyh : y.toNat < h
    · rw [List.get?_range hyh]
      simp only [Option.map_some', Option.some_bind]
      by_cases hx0 : x < 0
      · rw [if_pos hx0]
        constructor
        · intro hc; cases hc
        · rintro ⟨⟨hx, -, -, -⟩, -⟩
          omega
      · push_neg at hx0
        rw [if_neg (by omega)]
        rw [List.get?_map]
        by_cases hxw : x.toNat < w
        · rw [List.get?_range hxw]
          have hxx : (Int.ofNat x.toNat) = x := Int.toNat_of_nonneg hx0
          have hyy : (Int.ofNat y.toNat) = y := Int.toNat_of_nonneg hy0
          rw [Option.map_some']
          rw [hxx, hyy]
          simp only [beq_iff_eq, Option.some.injEq]
          constructor
          · intro hval
            exact ⟨⟨hx0, by omega, hy0, by omega⟩, hval⟩
          · rintro ⟨-, hval⟩
            exact hval
        · rw [List.get?_eq_none.2 (by simpa using Nat.le_of_not_lt hxw)]
          simp only [Option.map_none']
          constructor
          · intro hc; cases hc
          · rintro ⟨⟨-, hx, -, -⟩, -⟩
            omega
    · rw [List.get?_eq_none.2 (by simpa using Nat.le_of_not_lt hyh)]
      simp only [Option.map_none', Option.none_bind]
      constructor
      · intro hc; cases hc
      · rintro ⟨⟨-, -, -, hy⟩, -⟩
        omega

/-! ## Claim theorems -/

/-- C10: for odd dimensions ≥ 3, at the moment the carving stack empties every
in-bounds odd-odd cell (the whole lattice, including the goal cell) is already
path; consequently the post-loop forcing of the goal cell to path never
changes the grid. -/
theorem lattice_full_before_goal_force (w h : ℕ) (hw : Odd w) (hh : Odd h)
    (h3w : 3 ≤ w) (h3h : 3 ≤ h) (o : ℕ → Fin 4 → Fin 4)
    (hsurj : ∀ k, Function.Surjective (o k)) :
    (loopStateAfter w h o (w * h)).stack = [] ∧
    (∀ c : ℤ × ℤ, LatCell w h c → (loopStateAfter w h o (w * h)).maze c.1 c.2 = 1) ∧
    setCell (loopStateAfter w h o (w * h)).maze (GOAL_X w) (GOAL_Y h) 1 =
      (loopStateAfter w h o (w * h)).maze ∧
    genFn w h o = (loopStateAfter w h o (w * h)).maze :=
  ⟨loopEnd_empty w h hw hh h3w h3h o hsurj,
    final_lattice_full w h hw hh h3w h3h _
      (loopStateAfter_loopInv w h hw hh h3w h3h o hsurj (w * h))
      (loopEnd_empty w h hw hh h3w h3h o hsurj),
    setCell_eq_self _ _ _ (loopEnd_goal_path w h hw hh h3w h3h o hsurj),
    genFn_eq_loopEnd w h hw hh h3w h3h o hsurj⟩

theorem lattice_full_before_goal_force_witness :
    Odd 5 ∧ 3 ≤ 5 ∧ (∀ k : ℕ, Function.Surjective (fun i : Fin 4 => i)) ∧
    ((loopStateAfter 5 5 (fun _ i => i) (5 * 5)).stack = [] ∧
      (∀ c : ℤ × ℤ, LatCell 5 5 c →
        (loopStateAfter 5 5 (fun _ i => i) (5 * 5)).maze c.1 c.2 = 1) ∧
      setCell (loopStateAfter 5 5 (fun _ i => i) (5 * 5)).maze (GOAL_X 5) (GOAL_Y 5) 1 =
        (loopStateAfter 5 5 (fun _ i => i) (5 * 5)).maze ∧
      genFn 5 5 (fun _ i => i) = (loopStateAfter 5 5 (fun _ i => i) (5 * 5)).maze) :=
  ⟨by decide, by omega, fun _ => Function.surjective_id,
    lattice_full_before_goal_force 5 5 (by decide) (by decide) (by omega) (by omega)
      (fun _ i => i) (fun _ => Function.surjective_id)⟩

/-- C1: for odd dimensions ≥ 3, the path cells of the generated grid form a
single connected component containing the start cell `(1, 1)`: the start is
path, and every path cell is reachable from the start through 4-adjacent path
cells. -/
theorem maze_connected_from_start (w h : ℕ) (hw : Odd w) (hh : Odd h)
    (h3w : 3 ≤ w) (h3h : 3 ≤ h) (o : ℕ → Fin 4 → Fin 4)
    (hsurj : ∀ k, Function.Surjective (o k)) :
    genFn w h o START_X START_Y = 1 ∧
    ∀ a b : ℤ, genFn w h o a b = 1 →
      Reaches (genFn w h o) (START_X, START_Y) (a, b) := by
  have hmeq := genFn_eq_loopEnd w h hw hh h3w h3h o hsurj
  refine ⟨genFn_start w h o, fun a b hab => ?_⟩
  rw [hmeq] at hab ⊢
  exact (loopStateAfter_loopInv w h hw hh h3w h3h o hsurj (w * h)).1.connInv a b hab

theorem maze_connected_from_start_witness :
    Odd 5 ∧ 3 ≤ 5 ∧
    (genFn 5 5 (fun _ i => i) START_X START_Y = 1 ∧
      ∀ a b : ℤ, genFn 5 5 (fun _ i => i) a b = 1 →
        Reaches (genFn 5 5 (fun _ i => i)) (START_X, START_Y) (a, b)) :=
  ⟨by decide, by omega,
    maze_connected_from_start 5 5 (by decide) (by decide) (by omega) (by omega)
      (fun _ i => i) (fun _ => Function.surjective_id)⟩

/-- C3: every border cell of the returned grid is wall. -/
theorem border_cells_are_wall (w h : ℕ) (hw : Odd w) (hh : Odd h)
    (h3w : 3 ≤ w) (h3h : 3 ≤ h) (o : ℕ → Fin 4 → Fin 4)
    (hsurj : ∀ k, Function.Surjective (o k)) :
    ∀ x y : ℕ, x < w → y < h → (x = 0 ∨ x = w - 1 ∨ y = 0 ∨ y = h - 1) →
      ((generateMaze w h o).get? y).bind (fun r => r.get? x) = some 0 := by
  intro x y hx hy hborder
  rw [generateMaze_get w h o x y hx hy]
  rcases genFn_zeroOne w h o (x : ℤ) (y : ℤ) with h0 | h1
  · rw [h0]
  · exfalso
    obtain ⟨hi1, hi2, hi3, hi4⟩ := genFn_inner w h hw hh h3w h3h o hsurj _ _ h1
    have hxw : (x : ℤ) < (w : ℤ) := by exact_mod_cast hx
    have hyh : (y : ℤ) < (h : ℤ) := by exact_mod_cast hy
    rcases hborder with rfl | rfl | rfl | rfl
    · simp at hi1
    · have : ((w - 1 : ℕ) : ℤ) = (w : ℤ) - 1 := by
        have : 1 ≤ w := by omega
        push_cast [this]
        ring
      omega
    · simp at hi3
    · have : ((h - 1 : ℕ) : ℤ) = (h : ℤ) - 1 := by
        have : 1 ≤ h := by omega
        push_cast [this]
        ring
      omega

theorem border_cells_are_wall_witness :
    Odd 5 ∧ 3 ≤ 5 ∧
    (∀ x y : ℕ, x < 5 → y < 5 → (x = 0 ∨ x = 5 - 1 ∨ y = 0 ∨ y = 5 - 1) →
      ((generateMaze 5 5 (fun _ i => i)).get? y).bind (fun r => r.get? x) = some 0) :=
  ⟨by decide, by omega,
    border_cells_are_wall 5 5 (by decide) (by decide) (by omega) (by omega)
      (fun _ i => i) (fun _ => Function.surjective_id)⟩

/-- C4: the start cell `grid[1][1]` and the goal cell
`grid[height-2][width-2]` of the returned grid are both path. -/
theorem start_goal_are_path (w h : ℕ) (hw : Odd w) (hh : Odd h)
    (h3w : 3 ≤ w) (h3h : 3 ≤ h) (o : ℕ → Fin 4 → Fin 4) :
    ((generateMaze w h o).get? 1).bind (fun r => r.get? 1) = some 1 ∧
    ((generateMaze w h o).get? (h - 2)).bind (fun r => r.get? (w - 2)) = some 1 := by
  constructor
  · rw [generateMaze_get w h o 1 1 (by omega) (by omega)]
    have := genFn_start w h o
    simp only [START_X, START_Y] at this
    norm_num
    exact this
  · rw [generateMaze_get w h o (w - 2) (h - 2) (by omega) (by omega)]
    have hcw : ((w - 2 : ℕ) : ℤ) = GOAL_X w := by
      have : 2 ≤ w := by omega
      simp only [GOAL_X]
      push_cast [this]
      ring
    have hch : ((h - 2 : ℕ) : ℤ) = GOAL_Y h := by
      have : 2 ≤ h := by omega
      simp only [GOAL_Y]
      push_cast [this]
      ring
    rw [hcw, hch, genFn_goal w h o]

theorem start_goal_are_path_witness :
    Odd 5 ∧ 3 ≤ 5 ∧
    (((generateMaze 5 5 (fun _ i => i)).get? 1).bind (fun r => r.get? 1) = some 1 ∧
      ((generateMaze 5 5 (fun _ i => i)).get? (5 - 2)).bind
        (fun r => r.get? (5 - 2)) = some 1) :=
  ⟨by decide, by omega,
    start_goal_are_path 5 5 (by decide) (by decide) (by omega) (by omega) (fun _ i => i)⟩

/-- C7: for odd dimensions ≥ 3 the generation loop terminates: with
`width * height` units of fuel the stack is completely drained, no cell is
ever pushed twice over the whole run, and the loop executes at most
`width * height` pops. -/
theorem carve_terminates (w h : ℕ) (hw : Odd w) (hh : Odd h)
    (h3w : 3 ≤ w) (h3h : 3 ≤ h) (o : ℕ → Fin 4 → Fin 4)
    (hsurj : ∀ k, Function.Surjective (o k)) :
    (loopStateAfter w h o (w * h)).stack = [] ∧
    (loopStateAfter w h o (w * h)).pushed.Nodup ∧
    (loopStateAfter w h o (w * h)).pops ≤ w * h := by
  refine ⟨loopEnd_empty w h hw hh h3w h3h o hsurj,
    (loopStateAfter_loopInv w h hw hh h3w h3h o hsurj (w * h)).1.pushedNodup, ?_⟩
  have := carveLoop_pops_le w h o (w * h) initState
  have hpops0 : initState.pops = 0 := rfl
  rw [hpops0] at this
  simpa [loopStateAfter] using this

theorem carve_terminates_witness :
    Odd 5 ∧ 3 ≤ 5 ∧
    ((loopStateAfter 5 5 (fun _ i => i) (5 * 5)).stack = [] ∧
      (loopStateAfter 5 5 (fun _ i => i) (5 * 5)).pushed.Nodup ∧
      (loopStateAfter 5 5 (fun _ i => i) (5 * 5)).pops ≤ 5 * 5) :=
  ⟨by decide, by omega,
    carve_terminates 5 5 (by decide) (by decide) (by omega) (by omega)
      (fun _ i => i) (fun _ => Function.surjective_id)⟩

/-- C5: the navigation guard check `maze[ny]?.[nx] === 1` of the generated grid
returns `true` iff the coordinate is within grid bounds and the cell is path;
in particular it is (totally defined and) `false` on every out-of-bounds
coordinate, including negative indices. -/
theorem guard_iff_inbounds_path (w h : ℕ) (o : ℕ → Fin 4 → Fin 4) (x y : ℤ) :
    (canMoveTo (generateMaze w h o) x y = true ↔
      InB w h x y ∧ genFn w h o x y = 1) ∧
    (¬ InB w h x y → canMoveTo (generateMaze w h o) x y = false) := by
  have hiff : canMoveTo (generateMaze w h o) x y = true ↔
      InB w h x y ∧ genFn w h o x y = 1 :=
    canMoveTo_mazeList (genFn w h o) w h x y
  refine ⟨hiff, fun hnb => ?_⟩
  cases hcm : canMoveTo (generateMaze w h o) x y
  · rfl
  · exact absurd (hiff.1 hcm).1 hnb

/-- C9: the handler `handleKeyDown` moves to the single-step candidate exactly when the
guard approves it and otherwise leaves the position unchanged; consequently,
starting from `(1, 1)` on a generated grid, the player position always stays
in bounds and on a path cell. -/
theorem movement_guarded_safe (w h : ℕ) (hw : Odd w) (hh : Odd h)
    (h3w : 3 ≤ w) (h3h : 3 ≤ h) (o : ℕ → Fin 4 → Fin 4) :
    (∀ (p : ℤ × ℤ) (k : Key),
      canMoveTo (generateMaze w h o) (candidate p k).1 (candidate p k).2 = true →
        movePos (generateMaze w h o) p k = candidate p k) ∧
    (∀ (p : ℤ × ℤ) (k : Key),
      canMoveTo (generateMaze w h o) (candidate p k).1 (candidate p k).2 = false →
        movePos (generateMaze w h o) p k = p) ∧
    (∀ ks : List Key,
      InB w h (ks.foldl (movePos (generateMaze w h o)) (START_X, START_Y)).1
        (ks.foldl (movePos (generateMaze w h o)) (START_X, START_Y)).2 ∧
      genFn w h o (ks.foldl (movePos (generateMaze w h o)) (START_X, START_Y)).1
        (ks.foldl (movePos (generateMaze w h o)) (START_X, START_Y)).2 = 1) := by
  refine ⟨fun p k hg => by simp [movePos, hg], fun p k hg => by simp [movePos, hg], ?_⟩
  have haux : ∀ (ks : List Key) (p : ℤ × ℤ),
      InB w h p.1 p.2 ∧ genFn w h o p.1 p.2 = 1 →
      InB w h (ks.foldl (movePos (generateMaze w h o)) p).1
        (ks.foldl (movePos (generateMaze w h o)) p).2 ∧
      genFn w h o (ks.foldl (movePos (generateMaze w h o)) p).1
        (ks.foldl (movePos (generateMaze w h o)) p).2 = 1 := by
    intro ks
    induction ks with
    | nil => intro p hp; simpa using hp
    | cons k ks ih =>
      intro p hp
      simp only [List.foldl_cons]
      apply ih
      unfold movePos
      by_cases hg : canMoveTo (generateMaze w h o) (candidate p k).1 (candidate p k).2 = true
      · rw [if_pos hg]
        exact (canMoveTo_mazeList (genFn w h o) w h _ _).1 hg
      · rw [if_neg hg]
        exact hp
  intro ks
  apply haux
  have hwi : (3 : ℤ) ≤ (w : ℤ) := by exact_mod_cast h3w
  have hhi : (3 : ℤ) ≤ (h : ℤ) := by exact_mod_cast h3h
  exact ⟨⟨by simp only [START_X]; omega, by simp only [START_X]; omega,
    by simp only [START_Y]; omega, by simp only [START_Y]; omega⟩, genFn_start w h o⟩

theorem movement_guarded_safe_witness :
    Odd 5 ∧ 3 ≤ 5 ∧
    ((∀ (p : ℤ × ℤ) (k : Key),
      canMoveTo (generateMaze 5 5 (fun _ i => i)) (candidate p k).1 (candidate p k).2 = true →
        movePos (generateMaze 5 5 (fun _ i => i)) p k = candidate p k) ∧
    (∀ (p : ℤ × ℤ) (k : Key),
      canMoveTo (generateMaze 5 5 (fun _ i => i)) (candidate p k).1 (candidate p k).2 = false →
        movePos (generateMaze 5 5 (fun _ i => i)) p k = p) ∧
    (∀ ks : List Key,
      InB 5 5 (ks.foldl (movePos (generateMaze 5 5 (fun _ i => i))) (START_X, START_Y)).1
        (ks.foldl (movePos (generateMaze 5 5 (fun _ i => i))) (START_X, START_Y)).2 ∧
      genFn 5 5 (fun _ i => i)
          (ks.foldl (movePos (generateMaze 5 5 (fun _ i => i))) (START_X, START_Y)).1
          (ks.foldl (movePos (generateMaze 5 5 (fun _ i => i))) (START_X, START_Y)).2 = 1)) :=
  ⟨by decide, by omega,
    movement_guarded_safe 5 5 (by decide) (by decide) (by omega) (by omega) (fun _ i => i)⟩

/-- C8: at every iteration of the carving loop, the popped coordinate is never
re-pushed, and a single pop pushes between zero and four new coordinates, each
of which was a wall cell before the pop and is path afterwards together with
the midpoint cell between it and the popped cell. -/
theorem pop_worklist_discipline (w h : ℕ) (hw : Odd w) (hh : Odd h)
    (h3w : 3 ≤ w) (h3h : 3 ≤ h) (o : ℕ → Fin 4 → Fin 4)
    (hsurj : ∀ k, Function.Surjective (o k)) (n : ℕ) (x y : ℤ)
    (rest : List (ℤ × ℤ))
    (hpop : (loopStateAfter w h o n).stack = (x, y) :: rest) :
    ∃ news : List (ℤ × ℤ),
      (carvePop w h (orderAt o (loopStateAfter w h o n).pops) x y
          { (loopStateAfter w h o n) with
              stack := rest
              pops := (loopStateAfter w h o n).pops + 1 }).stack = news ++ rest ∧
      news.length ≤ 4 ∧
      (x, y) ∉ news ∧
      ∀ c ∈ news,
        (loopStateAfter w h o n).maze c.1 c.2 = 0 ∧
        (carvePop w h (orderAt o (loopStateAfter w h o n).pops) x y
            { (loopStateAfter w h o n) with
                stack := rest
                pops := (loopStateAfter w h o n).pops + 1 }).maze c.1 c.2 = 1 ∧
        ∃ d ∈ orderAt o (loopStateAfter w h o n).pops,
          c = (x + d.1, y + d.2) ∧
          (carvePop w h (orderAt o (loopStateAfter w h o n).pops) x y
              { (loopStateAfter w h o n) with
                  stack := rest
                  pops := (loopStateAfter w h o n).pops + 1 }).maze
            (x + d.1 / 2) (y + d.2 / 2) = 1 := by
  have hinv := loopStateAfter_loopInv w h hw hh h3w h3h o hsurj n
  obtain ⟨hlatxy, hxy⟩ := hinv.1.stackInv (x, y)
    (by rw [hpop]; exact List.mem_cons_self _ _)
  obtain ⟨news, hstack, hpush, hedg, hlen, hfacts⟩ :=
    carvePop_news w h x y (orderAt o (loopStateAfter w h o n).pops)
      { (loopStateAfter w h o n) with
          stack := rest
          pops := (loopStateAfter w h o n).pops + 1 }
  refine ⟨news.reverse, hstack, ?_, ?_, ?_⟩
  · rw [List.length_reverse]
    calc news.length ≤ (orderAt o (loopStateAfter w h o n).pops).length := hlen
      _ = 4 := orderAt_length _ _
  · intro hmem
    rw [List.mem_reverse] at hmem
    obtain ⟨hnot1, -⟩ := hfacts _ hmem
    exact hnot1 hxy
  · intro c hc
    rw [List.mem_reverse] at hc
    obtain ⟨hnot1, hinb, hpath, d, hd, hform, hmid⟩ := hfacts c hc
    refine ⟨?_, hpath, d, hd, hform, hmid⟩
    rcases hinv.1.zeroOne c.1 c.2 with h0 | h1
    · exact h0
    · exact absurd h1 hnot1

theorem pop_worklist_discipline_witness :
    Odd 5 ∧ 3 ≤ 5 ∧ (loopStateAfter 5 5 (fun _ i => i) 0).stack = (1, 1) :: [] ∧
    (∃ news : List (ℤ × ℤ),
      (carvePop 5 5 (orderAt (fun _ i => i) (loopStateAfter 5 5 (fun _ i => i) 0).pops) 1 1
          { (loopStateAfter 5 5 (fun _ i => i) 0) with
              stack := []
              pops := (loopStateAfter 5 5 (fun _ i => i) 0).pops + 1 }).stack = news ++ [] ∧
      news.length ≤ 4 ∧
      ((1 : ℤ), (1 : ℤ)) ∉ news ∧
      ∀ c ∈ news,
        (loopStateAfter 5 5 (fun _ i => i) 0).maze c.1 c.2 = 0 ∧
        (carvePop 5 5 (orderAt (fun _ i => i) (loopStateAfter 5 5 (fun _ i => i) 0).pops) 1 1
            { (loopStateAfter 5 5 (fun _ i => i) 0) with
                stack := []
                pops := (loopStateAfter 5 5 (fun _ i => i) 0).pops + 1 }).maze c.1 c.2 = 1 ∧
        ∃ d ∈ orderAt (fun _ i => i) (loopStateAfter 5 5 (fun _ i => i) 0).pops,
          c = (1 + d.1, 1 + d.2) ∧
          (carvePop 5 5 (orderAt (fun _ i => i) (loopStateAfter 5 5 (fun _ i => i) 0).pops) 1 1
              { (loopStateAfter 5 5 (fun _ i => i) 0) with
                  stack := []
                  pops := (loopStateAfter 5 5 (fun _ i => i) 0).pops + 1 }).maze
            (1 + d.1 / 2) (1 + d.2 / 2) = 1) :=
  ⟨by decide, by omega, rfl,
    pop_worklist_discipline 5 5 (by decide) (by decide) (by omega) (by omega)
      (fun _ i => i) (fun _ => Function.surjective_id) 0 1 1 [] rfl⟩

lemma boxFinset_mem (w h : ℕ) (c : ℤ × ℤ) :
    c ∈ boxFinset w h ↔ InB w h c.1 c.2 := by
  simp only [boxFinset, Finset.mem_product, Finset.mem_Icc, InB]
  constructor
  · rintro ⟨⟨h1, h2⟩, h3, h4⟩
    exact ⟨h1, by omega, h3, by omega⟩
  · rintro ⟨h1, h2, h3, h4⟩
    exact ⟨⟨h1, by omega⟩, h3, by omega⟩

/-- C2: the carved structure is a tree — the number of recorded passages is
one less than the number of path lattice cells — and the set of cells
reachable from the start through path cells is exactly the set of path cells,
whose number equals the number of distinct cells carved by the algorithm. -/
theorem maze_is_perfect_tree (w h : ℕ) (hw : Odd w) (hh : Odd h)
    (h3w : 3 ≤ w) (h3h : 3 ≤ h) (o : ℕ → Fin 4 → Fin 4)
    (hsurj : ∀ k, Function.Surjective (o k)) :
    (genFinal w h o).edges.length + 1 =
      ((latFinset w h).filter (fun c => genFn w h o c.1 c.2 = 1)).card ∧
    {c : ℤ × ℤ | Reaches (genFn w h o) (START_X, START_Y) c} =
      {c : ℤ × ℤ | genFn w h o c.1 c.2 = 1} ∧
    Set.ncard {c : ℤ × ℤ | Reaches (genFn w h o) (START_X, START_Y) c} =
      (genFinal w h o).carved.toFinset.card := by
  have hinv := loopStateAfter_loopInv w h hw hh h3w h3h o hsurj (w * h)
  have hmeq : genFn w h o = (loopStateAfter w h o (w * h)).maze :=
    genFn_eq_loopEnd w h hw hh h3w h3h o hsurj
  have hgoal : (loopStateAfter w h o (w * h)).maze (GOAL_X w) (GOAL_Y h) = 1 :=
    loopEnd_goal_path w h hw hh h3w h3h o hsurj
  have hedges : (genFinal w h o).edges = (loopStateAfter w h o (w * h)).edges := rfl
  have hcarvedeq : (genFinal w h o).carved =
      (loopStateAfter w h o (w * h)).carved ++ [(GOAL_X w, GOAL_Y h)] := rfl
  have hpushedset : (loopStateAfter w h o (w * h)).pushed.toFinset =
      (latFinset w h).filter (fun c => genFn w h o c.1 c.2 = 1) := by
    ext c
    simp only [List.mem_toFinset, Finset.mem_filter, latFinset_mem, hmeq]
    exact hinv.1.pushedIff c
  have hconj1 : (genFinal w h o).edges.length + 1 =
      ((latFinset w h).filter (fun c => genFn w h o c.1 c.2 = 1)).card := by
    rw [hedges, hinv.1.edgesLen, ← hpushedset,
      List.toFinset_card_of_nodup hinv.1.pushedNodup]
  have hset : {c : ℤ × ℤ | Reaches (genFn w h o) (START_X, START_Y) c} =
      {c : ℤ × ℤ | genFn w h o c.1 c.2 = 1} := by
    ext c
    simp only [Set.mem_setOf_eq]
    constructor
    · intro hr
      rcases Relation.ReflTransGen.cases_tail hr with rfl | ⟨c', -, hstep⟩
      · exact genFn_start w h o
      · exact hstep.2
    · intro hp
      rw [hmeq] at hp
      have := hinv.1.connInv c.1 c.2 hp
      rw [← hmeq] at this
      simpa using this
  have hsetF : {c : ℤ × ℤ | genFn w h o c.1 c.2 = 1} =
      ↑((boxFinset w h).filter (fun c => genFn w h o c.1 c.2 = 1)) := by
    ext c
    simp only [Set.mem_setOf_eq, Finset.coe_filter, boxFinset_mem]
    constructor
    · intro hp
      exact ⟨innerAt_inB w h c.1 c.2 (genFn_inner w h hw hh h3w h3h o hsurj c.1 c.2 hp), hp⟩
    · rintro ⟨-, hp⟩
      exact hp
  have hcarvedset : (genFinal w h o).carved.toFinset =
      (boxFinset w h).filter (fun c => genFn w h o c.1 c.2 = 1) := by
    ext c
    rw [hcarvedeq]
    simp only [List.mem_toFinset, List.mem_append, List.mem_singleton,
      Finset.mem_filter, boxFinset_mem]
    constructor
    · rintro (hc | rfl)
      · have hp : (loopStateAfter w h o (w * h)).maze c.1 c.2 = 1 := by
          rw [hinv.1.carvedInv c.1 c.2]
          simpa using hc
        rw [← hmeq] at hp
        exact ⟨innerAt_inB w h c.1 c.2 (genFn_inner w h hw hh h3w h3h o hsurj c.1 c.2 hp), hp⟩
      · refine ⟨?_, genFn_goal w h o⟩
        exact (goal_latCell w h hw hh h3w h3h).1
    · rintro ⟨-, hp⟩
      left
      rw [hmeq] at hp
      have := (hinv.1.carvedInv c.1 c.2).1 hp
      simpa using this
  refine ⟨hconj1, hset, ?_⟩
  rw [hset, hsetF, Set.ncard_coe_Finset, hcarvedset]

theorem maze_is_perfect_tree_witness :
    Odd 5 ∧ 3 ≤ 5 ∧
    ((genFinal 5 5 (fun _ i => i)).edges.length + 1 =
      ((latFinset 5 5).filter (fun c => genFn 5 5 (fun _ i => i) c.1 c.2 = 1)).card ∧
    {c : ℤ × ℤ | Reaches (genFn 5 5 (fun _ i => i)) (START_X, START_Y) c} =
      {c : ℤ × ℤ | genFn 5 5 (fun _ i => i) c.1 c.2 = 1} ∧
    Set.ncard {c : ℤ × ℤ | Reaches (genFn 5 5 (fun _ i => i)) (START_X, START_Y) c} =
      (genFinal 5 5 (fun _ i => i)).carved.toFinset.card) :=
  ⟨by decide, by omega,
    maze_is_perfect_tree 5 5 (by decide) (by decide) (by omega) (by omega)
      (fun _ i => i) (fun _ => Function.surjective_id)⟩

/-- Row `y` of the materialized grid, for an in-bounds row index. -/
lemma mazeList_get_row (m : MazeFn) (w h : ℕ) (y : ℕ) (hy : y < h) :
    (mazeList m w h).get? y =
      some ((List.range w).map fun x => m (Int.ofNat x) (Int.ofNat y)) := by
  unfold mazeList
  rw [List.get?_map, List.get?_range hy]
  rfl

lemma mazeList_length (m : MazeFn) (w h : ℕ) : (mazeList m w h).length = h := by
  simp [mazeList]

/-- Reading any in-bounds cell of the materialized grid gives the array
contents at that cell. -/
lemma mazeList_get (m : MazeFn) (w h : ℕ) (x y : ℕ) (hx : x < w) (hy : y < h) :
    ((mazeList m w h).get? y).bind (fun r => r.get? x) =
      some (m (x : ℤ) (y : ℤ)) := by
  rw [mazeList_get_row m w h y hy]
  simp only [Option.some_bind]
  rw [List.get?_map, List.get?_range hx]
  rfl

/-- The source's module global `GOAL_X = MAZE_WIDTH - 2 = 19`, which line 74
uses regardless of the `width` argument of `generateMaze`. -/
def GOAL_X_global : ℕ := MAZE_WIDTH - 2

/-- The source's module global `GOAL_Y = MAZE_HEIGHT - 2 = 19`, used by
line 74 regardless of the `height` argument. -/
def GOAL_Y_global : ℕ := MAZE_HEIGHT - 2

/-- JS element assignment `l[i] = v` on an existing array: within the current
length it replaces the element; past the end it extends the array, leaving
holes at the skipped indices.  A hole reads back as `undefined`, and the only
reader of the returned grid in scope, the `=== 1` guard of `handleKeyDown`,
answers `false` on `undefined` exactly as on `0`, so holes are modeled
as `0`. -/
def jsArraySet (l : List ℕ) (i : ℕ) (v : ℕ) : List ℕ :=
  if i < l.length then l.set i v
  else l ++ List.replicate (i - l.length) 0 ++ [v]

/-- Exact model of the value produced by `generateMaze` including line 74 as
written in the source: `maze[GOAL_Y][GOAL_X] = 1` with the fixed module
globals `GOAL_Y = GOAL_X = 19`, independent of the `width`/`height`
arguments.  In JS, `maze[GOAL_Y]` is `undefined` when the grid has at most
19 rows, and the element assignment on `undefined` throws a `TypeError`, so
the call returns nothing (`none`, the crash).  When row 19 exists the
assignment `row[19] = 1` always succeeds, extending the row if it is shorter
(`jsArraySet`).  At the program's only call site, `width = height = 21`,
this agrees cell-by-cell with `generateMaze`
(`generateMazeJS_agrees_at_call_site`). -/
def generateMazeJS (width height : ℕ) (o : ℕ → Fin 4 → Fin 4) :
    Option (List (List ℕ)) :=
  ((mazeList (carveLoop width height o (width * height) initState).maze
      width height).get? GOAL_Y_global).map
    fun row =>
      (mazeList (carveLoop width height o (width * height) initState).maze
        width height).set GOAL_Y_global (jsArraySet row GOAL_X_global 1)

/-- At the only call site `generateMaze(MAZE_WIDTH, MAZE_HEIGHT)` the exact
fixed-global model returns a grid and agrees cell-by-cell with the
parameterized embedding used by the other claims. -/
lemma generateMazeJS_agrees_at_call_site (o : ℕ → Fin 4 → Fin 4) (x y : ℕ)
    (hx : x < MAZE_WIDTH) (hy : y < MAZE_HEIGHT) :
    (generateMazeJS MAZE_WIDTH MAZE_HEIGHT o).bind
        (fun g => (g.get? y).bind fun r => r.get? x) =
      ((generateMaze MAZE_WIDTH MAZE_HEIGHT o).get? y).bind (fun r => r.get? x) := by
  simp only [MAZE_WIDTH, MAZE_HEIGHT] at hx hy ⊢
  have hx21 : x < 21 := hx
  have hy21 : y < 21 := hy
  set FS := carveLoop 21 21 o (21 * 21) initState with hFS
  set row : List ℕ := (List.range 21).map fun x => FS.maze (Int.ofNat x) (Int.ofNat 19)
    with hrowdef
  have hgy : GOAL_Y_global = 19 := rfl
  have hgx : GOAL_X_global = 19 := rfl
  have hrow : (mazeList FS.maze 21 21).get? GOAL_Y_global = some row := by
    rw [hgy]
    exact mazeList_get_row FS.maze 21 21 19 (by omega)
  have hrowlen : row.length = 21 := by
    rw [hrowdef]
    simp
  have hset : jsArraySet row GOAL_X_global 1 = row.set 19 1 := by
    unfold jsArraySet
    rw [hgx, if_pos (by rw [hrowlen]; omega)]
  have hjs : generateMazeJS 21 21 o =
      some ((mazeList FS.maze 21 21).set 19 (row.set 19 1)) := by
    unfold generateMazeJS
    rw [← hFS, hrow, Option.map_some', hset, hgy]
  rw [hjs]
  simp only [Option.some_bind]
  rw [generateMaze_get 21 21 o x y hx21 hy21]
  have hgenval : genFn 21 21 o (x : ℤ) (y : ℤ) =
      setCell FS.maze (GOAL_X 21) (GOAL_Y 21) 1 (x : ℤ) (y : ℤ) := rfl
  have hGX : GOAL_X 21 = (19 : ℤ) := by norm_num [GOAL_X]
  have hGY : GOAL_Y 21 = (19 : ℤ) := by norm_num [GOAL_Y]
  by_cases hy19 : y = 19
  · subst hy19
    rw [List.get?_set_eq_of_lt _ (by rw [mazeList_length]; omega)]
    simp only [Option.some_bind]
    by_cases hx19 : x = 19
    · subst hx19
      rw [List.get?_set_eq_of_lt _ (by rw [hrowlen]; omega)]
      rw [hgenval, hGX, hGY]
      norm_num [setCell_same]
    · rw [List.get?_set_ne _ _ (by omega)]
      rw [hrowdef, List.get?_map, List.get?_range hx21]
      rw [hgenval, hGX, hGY,
        setCell_of_ne _ _ _ _ _ _ (by
          intro hc
          apply hx19
          have := hc.1
          omega)]
      rfl
  · rw [List.get?_set_ne _ _ (by omega)]
    rw [mazeList_get FS.maze 21 21 x y hx21 hy21]
    rw [hgenval, hGX, hGY,
      setCell_of_ne _ _ _ _ _ _ (by
        intro hc
        apply hy19
        have := hc.2
        omega)]

/-- C6 counterexample: at the invalid (even-width) dimensions 4×21 the
generator raises nothing and returns a grid, and that grid is out of
bounds/degenerate: the border cell at column 3 = width-1 of row 1 is path;
at the invalid dimensions 4×4 it returns no grid at all, because the
fixed-global goal write `maze[19][19] = 1` hits the missing row 19 and
throws a `TypeError` — not a `ConfigurationError`, which exists nowhere in
the program. -/
theorem generator_no_validation_cex :
    ((generateMazeJS 4 21 (fun _ i => i)).bind
        (fun g => (g.get? 1).bind fun r => r.get? 3)) = some 1 ∧
    generateMazeJS 4 4 (fun _ i => i) = none := by
  constructor
  · decide
  · decide

/-- C6 amended: the generator never fails with a `ConfigurationError` — it
contains no validation and no such error type.  On invalid dimensions it
either throws a `TypeError` from the fixed-global goal write (whenever the
grid has at most 19 rows, e.g. 4×4, so no grid is returned at all), or
returns a degenerate/out-of-bounds maze (e.g. 4×21, where for every shuffle
outcome the returned grid has a path cell on the border at `(3, 1)`). -/
theorem generator_lacks_validation (o : ℕ → Fin 4 → Fin 4)
    (hsurj : ∀ k, Function.Surjective (o k)) :
    generateMazeJS 4 4 o = none ∧
    ((generateMazeJS 4 21 o).bind
        (fun g => (g.get? 1).bind fun r => r.get? 3)) = some 1 := by
  constructor
  · unfold generateMazeJS
    have hnone : (mazeList (carveLoop 4 4 o (4 * 4) initState).maze 4 4).get?
        GOAL_Y_global = none := by
      rw [List.get?_eq_none, mazeList_length]
      norm_num [GOAL_Y_global, MAZE_HEIGHT]
    rw [hnone]
    rfl
  · -- the carve of the first pop reaches the border cell (3, 1)
    have hz : ZeroOne ({ initState with
        stack := ([] : List (ℤ × ℤ)), pops := initState.pops + 1 } : GenState).maze := by
      intro a b
      by_cases hc : a = START_X ∧ b = START_Y
      · right; simp [initState, setCell, hc]
      · left; simp [initState, setCell, hc]
    have hin : InB 4 21 ((1 : ℤ) + (dirs 0).1) ((1 : ℤ) + (dirs 0).2) :=
      ⟨by decide, by decide, by decide, by decide⟩
    have hcov := carvePop_covers 4 21 1 1 (orderAt o initState.pops)
      { initState with stack := ([] : List (ℤ × ℤ)), pops := initState.pops + 1 }
      hz 0 (dirs_mem_orderAt o initState.pops (hsurj _) 0) hin
    have h31 : (1 : ℤ) + (dirs 0).1 = 3 := by decide
    have h11 : (1 : ℤ) + (dirs 0).2 = 1 := by decide
    rw [h31, h11] at hcov
    have hstep : carveLoop 4 21 o 84 initState =
        carveLoop 4 21 o 83 (carvePop 4 21 (orderAt o initState.pops) 1 1
          { initState with stack := ([] : List (ℤ × ℤ)), pops := initState.pops + 1 }) := rfl
    have hfs : (carveLoop 4 21 o (4 * 21) initState).maze 3 1 = 1 := by
      show (carveLoop 4 21 o 84 initState).maze 3 1 = 1
      rw [hstep]
      exact carveLoop_mono 4 21 o 83 3 1 _ hcov
    -- read the cell through the fixed-global goal write
    set FS := carveLoop 4 21 o (4 * 21) initState with hFS
    set row : List ℕ := (List.range 4).map fun x => FS.maze (Int.ofNat x) (Int.ofNat 19)
      with hrowdef
    have hgy : GOAL_Y_global = 19 := rfl
    have hrow : (mazeList FS.maze 4 21).get? GOAL_Y_global = some row := by
      rw [hgy]
      exact mazeList_get_row FS.maze 4 21 19 (by omega)
    have hjs : generateMazeJS 4 21 o =
        some ((mazeList FS.maze 4 21).set GOAL_Y_global
          (jsArraySet row GOAL_X_global 1)) := by
      unfold generateMazeJS
      rw [← hFS, hrow, Option.map_some']
    rw [hjs]
    simp only [Option.some_bind]
    rw [List.get?_set_ne _ _ (by rw [hgy]; omega)]
    rw [mazeList_get FS.maze 4 21 3 1 (by omega) (by omega)]
    show some (FS.maze 3 1) = some 1
    rw [hfs]

theorem generator_lacks_validation_witness :
    (∀ k : ℕ, Function.Surjective (fun i : Fin 4 => i)) ∧
    (generateMazeJS 4 4 (fun _ i => i) = none ∧
      ((generateMazeJS 4 21 (fun _ i => i)).bind
          (fun g => (g.get? 1).bind fun r => r.get? 3)) = some 1) :=
  ⟨fun _ => Function.surjective_id,
    generator_lacks_validation (fun _ i => i) (fun _ => Function.surjective_id)⟩
